import Mathlib

/-!
# Leapfrog integration of a planet under an inverse-square force

A shallow embedding of `Planet_leapfrog_submit_circularorbit.cc`.

* The C type `double` is a type parameter `α` carrying the arithmetic the
  source uses (`+`, `*`, unary `-`, `/`, decimal literals); `sqrt` from
  `<cmath>` is an explicit argument.  Theorems about exact real arithmetic
  instantiate `α := ℝ` and `sqrt := Real.sqrt`; the same definitions run on
  `ℚ` with `Rat.sqrt`.
* `double x[D]` is a function `Fin D → α`; a `for` loop over `0 .. D-1` is
  `forD`, which runs its body once per index in increasing order.
* Every function of the source is `void`, takes the particle by reference
  and contains no `throw`, `exit` or `assert`; it is embedded as a total
  function from the state before the call to the state after it.
* `cout` is the list of tokens written so far.
* What a `double` division by zero produces is studied in `XR`, exact
  rational arithmetic extended by the infinities and NaN.
* `F64` is the arithmetic of `double` itself, with its rounding, overflow and
  underflow; statements about what the compiled program computes instantiate
  `α := F64`.
-/

namespace Planets

/-- The number of dimensions, `#define D 2`. -/
abbrev D : Nat := 2

/-- The C struct `particle`. -/
structure particle (α : Type) where
  /-- coordinates (x,y) -/
  x : Fin D → α
  /-- momentum -/
  p : Fin D → α
  /-- force -/
  F : Fin D → α
  /-- inverse mass -/
  im : α
  /-- gravitational parameter of this particle -/
  GMm : α
  /-- velocity -/
  v : Fin D → α
  /-- kinetic energy -/
  T : α
  /-- potential energy -/
  V : α
  /-- absolute distance from origin -/
  r : α

/-- The C struct `control`. -/
structure control where
  /-- program verbosity -/
  verbose : Int
  /-- period with which to print -/
  printing : Int

/-- Helper of `forD`: the first `n` rounds of the loop. -/
def forD.go {σ : Type} (body : Fin D → σ → σ) : (n : Nat) → n ≤ D → σ → σ
  | 0, _, s => s
  | n + 1, h, s => body ⟨n, h⟩ (forD.go body n (Nat.le_of_succ_le h) s)

/-- The loop `for ( int i = 0 ; i < D ; i++ ) { body }` acting on a state `s`. -/
def forD {σ : Type} (body : Fin D → σ → σ) (s : σ) : σ :=
  forD.go body D (Nat.le_refl D) s

section Source

variable {α : Type} [OfScientific α] [Add α] [Mul α] [Neg α] [Div α]

/-- Source lines 34-47: sets the force vector and the potential energy. -/
def Force (sqrt : α → α) (a : particle α) : particle α :=
  let R : α := forD (fun i R => R + a.x i * a.x i) 0.0
  let r : α := sqrt R
  let a : particle α := { a with V := - a.GMm / r }
  let a : particle α := { a with r := r }
  forD (fun i a => { a with F := Function.update a.F i (- a.GMm * a.x i / (r * R)) }) a

/-- Source lines 49-54. -/
def PositionStep (a : particle α) (dt : α) : particle α :=
  forD (fun i a => { a with x := Function.update a.x i (a.x i + dt * a.p i * a.im) }) a

/-- Source lines 56-61. -/
def MomentumStep (a : particle α) (dt : α) : particle α :=
  forD (fun i a => { a with p := Function.update a.p i (a.p i + dt * a.F i) }) a

/-- Source lines 63-69: propagate a change in velocity into the momentum vector. -/
def v2p (a : particle α) : particle α :=
  forD (fun i a => { a with p := Function.update a.p i (a.v i / a.im) }) a

/-- Source lines 71-75. -/
def p2v (a : particle α) : particle α :=
  forD (fun i a => { a with v := Function.update a.v i (a.p i * a.im) }) a

/-- Source lines 77-82. -/
def pv2T (a : particle α) : particle α :=
  let a : particle α := { a with T := 0.0 }
  forD (fun i a => { a with T := a.T + 0.5 * a.v i * a.p i }) a

/-- One item written to `cout` with `<<`. -/
inductive Tok (α : Type) where
  /-- a `double` -/
  | num (v : α)
  /-- an `int` -/
  | int (i : Int)
  /-- a string literal -/
  | str (s : String)
  /-- the manipulator `endl` -/
  | endl

/-- Ghost record of what `LeapfrogDynamics` executes: one entry per call it
makes and per assignment to the clock `t`.  It is not data of the program. -/
inductive Event (α : Type) where
  | p2v
  | pv2T
  | Force
  | showState
  | PositionStep
  | MomentumStep
  /-- the statement `t += δ` -/
  | clock (δ : α)

/-- Everything `LeapfrogDynamics` reads and writes: the particle `a` and the
clock `t` (both passed by reference), the standard output, and the ghost
record of executed calls. -/
structure World (α : Type) where
  a : particle α
  t : α
  cout : List (Tok α)
  log : List (Event α)

/-- Source lines 84-102, as the tokens appended to `cout`. -/
def showState (a : particle α) (cout : List (Tok α)) : List (Tok α) :=
  let cout := forD (fun i cout => cout ++ [.str "\t", .num (a.x i)]) cout
  let cout := forD (fun i cout => cout ++ [.str "\t", .num (a.v i)]) cout
  let cout := cout ++
    [.str "\t", .num a.T, .str "\t", .num a.V, .str "\t", .num (a.T + a.V), .endl]
  let cout := cout ++ [.str "#"]
  let cout := forD (fun i cout => cout ++ [.str "\tx[", .int i, .str "]\t"]) cout
  let cout := forD (fun i cout => cout ++ [.str "\tv[", .int i, .str "]\t"]) cout
  let cout := cout ++ [.str "\tT\t\tV\t\tT+V"]
  cout ++ [.endl]

/-- The reporting branch, source lines 113-115. -/
def report (sqrt : α → α) (w : World α) : World α :=
  let w : World α := { w with a := p2v w.a, log := w.log ++ [.p2v] }
  let w : World α := { w with a := pv2T w.a, log := w.log ++ [.pv2T] }
  let w : World α := { w with a := Force sqrt w.a, log := w.log ++ [.Force] }
  let w : World α := { w with cout := w.cout ++ [.num w.t] }
  { w with cout := showState w.a w.cout, log := w.log ++ [.showState] }

/-- The body of the loop of `LeapfrogDynamics`, source lines 112-127, at loop
index `i`.  The test `c.printing && !(i%c.printing)` short-circuits, and `%`
on `int` truncates towards zero. -/
def iteration (sqrt : α → α) (dt : α) (c : control) (i : Int) (w : World α) : World α :=
  let w : World α :=
    if c.printing ≠ 0 ∧ Int.tmod i c.printing = 0 then report sqrt w else w
  let w : World α := { w with a := PositionStep w.a (dt * 0.5), log := w.log ++ [.PositionStep] }
  let w : World α := { w with t := w.t + dt * 0.5, log := w.log ++ [.clock (dt * 0.5)] }
  let w : World α := { w with a := Force sqrt w.a, log := w.log ++ [.Force] }
  let w : World α := { w with a := MomentumStep w.a dt, log := w.log ++ [.MomentumStep] }
  let w : World α := { w with a := PositionStep w.a (dt * 0.5), log := w.log ++ [.PositionStep] }
  { w with t := w.t + dt * 0.5, log := w.log ++ [.clock (dt * 0.5)] }

/-- Helper of `loop`: `n` more rounds, the next one at index `i`. -/
def loop.go {σ : Type} (body : Int → σ → σ) : Nat → Int → σ → σ
  | 0, _, w => w
  | n + 1, i, w => loop.go body n (i + 1) (body i w)

/-- The loop `for ( int i=0 ; i < N ; i ++ ) { body }` acting on a state `w`:
the rounds `i = 0, ..., N-1` in this order, none when `N ≤ 0`. -/
def loop {σ : Type} (body : Int → σ → σ) (N : Int) (w : σ) : σ :=
  loop.go body N.toNat 0 w

/-- Source lines 104-129.  The result holds the particle and clock after the call,
the output written by the call and its ghost record. -/
def LeapfrogDynamics (sqrt : α → α) (a : particle α) (dt : α) (t : α) (N : Int)
    (c : control) : World α :=
  loop (iteration sqrt dt c) N { a := a, t := t, cout := [], log := [] }

/-- Source lines 139-163.  The local `a` is declared without initialiser:
`a0` holds the indeterminate initial contents of its fields.  The `int`
literal in `a.x[1] = 0` is converted to the `double` zero. -/
def main (sqrt : α → α) (a0 : particle α) : World α :=
  let c : control := { verbose := 1, printing := 5 }
  let a : particle α := { a0 with im := 1.0 }
  let a : particle α := { a with v := Function.update a.v 0 0.0 }
  let a : particle α := { a with v := Function.update a.v 1 (1.0 / 3.0) }
  let a : particle α := { a with x := Function.update a.x 0 9.0 }
  let a : particle α := { a with x := Function.update a.x 1 0.0 }
  let a : particle α := { a with GMm := 1.0 }
  let a : particle α := v2p a
  let dt : α := 0.001
  let t : α := 0.0
  let N : Int := 500000
  LeapfrogDynamics sqrt a dt t N c

/-- What a run of the integrator carries from one round to the next: position,
momentum, inverse mass, gravitational parameter and clock. -/
def phase (w : World α) : (Fin D → α) × (Fin D → α) × α × α × α :=
  (w.a.x, w.a.p, w.a.im, w.a.GMm, w.t)

/-- The increments of the assignments to the clock in a ghost record, in order. -/
def clockWrites : List (Event α) → List α
  | [] => []
  | .clock δ :: l => δ :: clockWrites l
  | _ :: l => clockWrites l

/-- The totals `T+V` of the records in an output: `showState` writes the total
as the last number of a record, right before `endl`, and no other number
stands right before an `endl`. -/
def reportedTotals : List (Tok α) → List α
  | [] => []
  | .num e :: l =>
    match l with
    | .endl :: _ => e :: reportedTotals l
    | _ => reportedTotals l
  | _ :: l => reportedTotals l

/-- The ghost record of the reporting branch of a round. -/
def reportEvents : List (Event α) :=
  [.p2v, .pv2T, .Force, .showState]

/-- The ghost record of the stepping part of a round with step `dt`. -/
def stepEvents (dt : α) : List (Event α) :=
  [.PositionStep, .clock (dt * 0.5), .Force, .MomentumStep, .PositionStep, .clock (dt * 0.5)]

/-- The number of calls of `showState` in a ghost record. -/
def snapshots : List (Event α) → Nat
  | [] => 0
  | .showState :: l => snapshots l + 1
  | _ :: l => snapshots l

/-- The number of lines of an output: the number of its `endl`. -/
def lineEnds : List (Tok α) → Nat
  | [] => 0
  | .endl :: l => lineEnds l + 1
  | _ :: l => lineEnds l

/-- The angular momentum `x[0]*p[1] - x[1]*p[0]` of a particle. -/
def angularMomentum [Sub α] (a : particle α) : α :=
  a.x 0 * a.p 1 - a.x 1 * a.p 0

end Source

/-- What holds of the run of `main` over the reals after `k` rounds: unit
inverse mass and gravitational parameter, angular momentum `3`, an energy of
at most `-1/18 + k * 1.1e-10`, and every total reported so far between `-1/18`
and `-1/18 + 1/18000`. -/
def orbitInv (k : ℝ) (w : World ℝ) : Prop :=
  w.a.im = 1 ∧ w.a.GMm = 1 ∧
  w.a.x 0 * w.a.p 1 - w.a.x 1 * w.a.p 0 = 3 ∧
  0.5 * (w.a.p 0 ^ 2 + w.a.p 1 ^ 2) - 1 / Real.sqrt (w.a.x 0 ^ 2 + w.a.x 1 ^ 2)
    ≤ -1 / 18 + k * (11 / 100000000000) ∧
  ∀ e ∈ reportedTotals w.cout, -1 / 18 ≤ e ∧ e ≤ -1 / 18 + 1 / 18000

/-! ## Errors

The specification names two kinds of error.  The source declares no error
type: its statements are assignments, `for` loops, one `if`, and calls of its
own functions, of `sqrt` and of `operator<<`.  None of them throws, aborts or
exits, and arithmetic on `double` does not trap. -/

/-- The kinds of error named by the specification. -/
inductive SimError where
  | ConfigurationError
  | DomainError
  deriving DecidableEq, Repr

/-- How a call of a function ends. -/
inductive Outcome (σ : Type) where
  /-- the call returns, leaving the state `s` -/
  | returned (s : σ)
  /-- the call ends with the error `e` -/
  | failed (e : SimError)

/-- A call of a function `f` of the source: since no statement of the source
raises an error, the call returns what the body computes. -/
def call {σ τ : Type} (f : σ → τ) (s : σ) : Outcome τ :=
  .returned (f s)

/-! ## Arithmetic with the special values of IEEE 754

`XR` is exact rational arithmetic extended by the two infinities and NaN, with
the rules of IEEE 754 for them: a model of `double` that keeps what a division
by zero produces and leaves out rounding.  A zero is taken to be `+0`. -/

/-- A rational number, an infinity or NaN. -/
inductive XR where
  | fin (q : ℚ)
  | pinf
  | ninf
  | nan
  deriving DecidableEq

namespace XR

/-- The infinity with the sign of `q`; NaN when `q` is zero. -/
def ofSign (q : ℚ) : XR :=
  if q = 0 then nan else if 0 < q then pinf else ninf

/-- Unary minus. -/
def neg : XR → XR
  | fin q => fin (-q)
  | pinf => ninf
  | ninf => pinf
  | nan => nan

/-- Addition: `inf + (-inf)` is NaN. -/
def add : XR → XR → XR
  | fin a, fin b => fin (a + b)
  | nan, _ => nan
  | _, nan => nan
  | pinf, ninf => nan
  | ninf, pinf => nan
  | pinf, _ => pinf
  | _, pinf => pinf
  | ninf, _ => ninf
  | _, ninf => ninf

/-- Multiplication: `inf * 0` is NaN. -/
def mul : XR → XR → XR
  | fin a, fin b => fin (a * b)
  | nan, _ => nan
  | _, nan => nan
  | pinf, fin b => ofSign b
  | fin a, pinf => ofSign a
  | ninf, fin b => ofSign (-b)
  | fin a, ninf => ofSign (-a)
  | pinf, pinf => pinf
  | ninf, ninf => pinf
  | pinf, ninf => ninf
  | ninf, pinf => ninf

/-- Division: `0 / 0` and `inf / inf` are NaN, `a / 0` is the infinity with
the sign of `a`, and a finite number over an infinity is `0`. -/
def div : XR → XR → XR
  | fin a, fin b => if b = 0 then ofSign a else fin (a / b)
  | nan, _ => nan
  | _, nan => nan
  | fin _, pinf => fin 0
  | fin _, ninf => fin 0
  | pinf, fin b => if 0 ≤ b then pinf else ninf
  | ninf, fin b => if 0 ≤ b then ninf else pinf
  | pinf, pinf => nan
  | pinf, ninf => nan
  | ninf, pinf => nan
  | ninf, ninf => nan

/-- Square root: NaN below zero; on a rational number the root of numerator
and denominator, which is exact on squares. -/
def sqrt : XR → XR
  | fin q => if q < 0 then nan else fin (Rat.sqrt q)
  | pinf => pinf
  | ninf => nan
  | nan => nan

instance : Neg XR := ⟨neg⟩
instance : Add XR := ⟨add⟩
instance : Mul XR := ⟨mul⟩
instance : Div XR := ⟨div⟩
instance : OfScientific XR := ⟨fun m s e => fin (OfScientific.ofScientific m s e)⟩

end XR

/-! ## The arithmetic of `double`

`F64` is IEEE 754 binary64 with rounding to nearest, ties to even: the finite
values are the multiples `k * 2^-1074` with at most 53 significant bits and
`k < 2^2098`, each with a sign (so there are two zeros), and there are two
infinities and NaN.  Every operation rounds the exact result; a result of
magnitude `2^1024` or more becomes an infinity, one below the least positive
value becomes a zero or that value. -/

/-- A value of the C type `double`: `fin neg k` is `k * 2^-1074`, negated when
`neg` holds; `inf neg` is an infinity; `nan` is NaN. -/
inductive F64 where
  | fin (neg : Bool) (k : Nat)
  | inf (neg : Bool)
  | nan
  deriving DecidableEq

namespace F64

/-- The integer nearest to `n / d`, the even one of two equally near. -/
def roundDiv (n d : Nat) : Nat :=
  if 2 * (n % d) < d then n / d
  else if 2 * (n % d) = d then (if n / d % 2 = 0 then n / d else n / d + 1)
  else n / d + 1

/-- Helper of `ilog2`: bisection on the bit positions `2^j`. -/
def ilog2.go : Nat → Nat → Nat → Nat
  | 0, _, acc => acc
  | j + 1, n, acc =>
    if 2 ^ 2 ^ j ≤ n then ilog2.go j (n / 2 ^ 2 ^ j) (acc + 2 ^ j) else ilog2.go j n acc

/-- The position of the leading bit of `n`, for `0 < n < 2^8192`. -/
def ilog2 (n : Nat) : Nat :=
  ilog2.go 13 n 0

/-- The number with at most 53 significant bits nearest to `n / d`, the one
with even last bit of two equally near.  Numbers are counted in multiples of
`2^-1074`, so below `2^53` every integer qualifies. -/
def roundGrid (n d : Nat) : Nat :=
  if n / d < 2 ^ 53 then roundDiv n d
  else roundDiv n (d * 2 ^ (ilog2 (n / d) - 52)) * 2 ^ (ilog2 (n / d) - 52)

/-- The `double` of sign `neg` and magnitude `k * 2^-1074`: an infinity from
`2^1024` on. -/
def ofGrid (neg : Bool) (k : Nat) : F64 :=
  if k < 2 ^ 2098 then fin neg k else inf neg

/-- Unary minus. -/
def neg : F64 → F64
  | fin s k => fin (!s) k
  | inf s => inf (!s)
  | nan => nan

/-- Addition.  A sum that is exactly zero is `+0`, except `-0 + -0`. -/
def add : F64 → F64 → F64
  | fin s1 k1, fin s2 k2 =>
    if s1 = s2 then ofGrid s1 (roundGrid (k1 + k2) 1)
    else if k1 = k2 then fin false 0
    else if k2 < k1 then ofGrid s1 (roundGrid (k1 - k2) 1)
    else ofGrid s2 (roundGrid (k2 - k1) 1)
  | fin _ _, inf s => inf s
  | inf s, fin _ _ => inf s
  | inf s1, inf s2 => if s1 = s2 then inf s1 else nan
  | nan, _ => nan
  | _, nan => nan

/-- Multiplication.  The sign is the product of the signs; `inf * 0` is NaN. -/
def mul : F64 → F64 → F64
  | fin s1 k1, fin s2 k2 => ofGrid (s1 != s2) (roundGrid (k1 * k2) (2 ^ 1074))
  | fin s1 k, inf s2 => if k = 0 then nan else inf (s1 != s2)
  | inf s1, fin s2 k => if k = 0 then nan else inf (s1 != s2)
  | inf s1, inf s2 => inf (s1 != s2)
  | nan, _ => nan
  | _, nan => nan

/-- Division.  `0 / 0` and `inf / inf` are NaN, any other `a / 0` is an
infinity, and a finite number over an infinity is a zero. -/
def div : F64 → F64 → F64
  | fin s1 k1, fin s2 k2 =>
    if k2 = 0 then (if k1 = 0 then nan else inf (s1 != s2))
    else ofGrid (s1 != s2) (roundGrid (k1 * 2 ^ 1074) k2)
  | fin s1 _, inf s2 => fin (s1 != s2) 0
  | inf s1, fin s2 _ => inf (s1 != s2)
  | inf _, inf _ => nan
  | nan, _ => nan
  | _, nan => nan

/-- The number with at most 53 significant bits nearest to the square root of
`n`, in multiples of `2^-1074`. -/
def roundSqrt (n : Nat) : Nat :=
  let r := Nat.sqrt n
  if r < 2 ^ 53 then
    (if r * r + r < n then r + 1 else r)
  else
    let sh := ilog2 r - 52
    let m := r / 2 ^ sh
    let mid := (2 * m + 1) * 2 ^ (sh - 1)
    if n < mid * mid then m * 2 ^ sh
    else if n = mid * mid then (if m % 2 = 0 then m * 2 ^ sh else (m + 1) * 2 ^ sh)
    else (m + 1) * 2 ^ sh

/-- The function `sqrt` of `<cmath>`: a zero is its own root, a negative
number has the root NaN. -/
def sqrt : F64 → F64
  | fin s k => if k = 0 then fin s 0 else if s then nan else fin false (roundSqrt (k * 2 ^ 1074))
  | inf s => if s then nan else inf false
  | nan => nan

/-- The `double` that a decimal literal `m * 10^e`, or `m * 10^-e` when `s`
holds, denotes. -/
def ofScientific (m : Nat) (s : Bool) (e : Nat) : F64 :=
  if s then ofGrid false (roundGrid (m * 2 ^ 1074) (10 ^ e))
  else ofGrid false (roundGrid (m * 10 ^ e * 2 ^ 1074) 1)

instance : Neg F64 := ⟨neg⟩
instance : Add F64 := ⟨add⟩
instance : Mul F64 := ⟨mul⟩
instance : Div F64 := ⟨div⟩
instance : OfScientific F64 := ⟨ofScientific⟩

end F64

/-! ## The loops over the `D = 2` components, unrolled -/

theorem forD_eq {σ : Type} (body : Fin D → σ → σ) (s : σ) :
    forD body s = body 1 (body 0 s) := rfl

section Unrolled

variable {α : Type}

theorem Force_eq [OfScientific α] [Add α] [Mul α] [Neg α] [Div α] (sqrt : α → α)
    (a : particle α) :
    Force sqrt a =
      { a with
        V := - a.GMm / sqrt (0.0 + a.x 0 * a.x 0 + a.x 1 * a.x 1)
        r := sqrt (0.0 + a.x 0 * a.x 0 + a.x 1 * a.x 1)
        F := fun i => - a.GMm * a.x i /
          (sqrt (0.0 + a.x 0 * a.x 0 + a.x 1 * a.x 1) *
            (0.0 + a.x 0 * a.x 0 + a.x 1 * a.x 1)) } := by
  simp only [Force, forD_eq]
  congr 1
  funext i
  fin_cases i <;> simp [Function.update]

theorem PositionStep_eq [Add α] [Mul α] (a : particle α) (dt : α) :
    PositionStep a dt = { a with x := fun i => a.x i + dt * a.p i * a.im } := by
  simp only [PositionStep, forD_eq]
  congr 1
  funext i
  fin_cases i <;> simp [Function.update]

theorem MomentumStep_eq [Add α] [Mul α] (a : particle α) (dt : α) :
    MomentumStep a dt = { a with p := fun i => a.p i + dt * a.F i } := by
  simp only [MomentumStep, forD_eq]
  congr 1
  funext i
  fin_cases i <;> simp [Function.update]

theorem v2p_eq [Div α] (a : particle α) :
    v2p a = { a with p := fun i => a.v i / a.im } := by
  simp only [v2p, forD_eq]
  congr 1
  funext i
  fin_cases i <;> simp [Function.update]

theorem p2v_eq [Mul α] (a : particle α) :
    p2v a = { a with v := fun i => a.p i * a.im } := by
  simp only [p2v, forD_eq]
  congr 1
  funext i
  fin_cases i <;> simp [Function.update]

theorem pv2T_eq [OfScientific α] [Add α] [Mul α] (a : particle α) :
    pv2T a = { a with T := 0.0 + 0.5 * a.v 0 * a.p 0 + 0.5 * a.v 1 * a.p 1 } := rfl

end Unrolled

/-! ## One round of the stepping loop -/

section Rounds

variable {α : Type}

theorem loop_go_succ {σ : Type} (body : Int → σ → σ) (n : Nat) (i : Int) (w : σ) :
    loop.go body (n + 1) i w = body (i + n) (loop.go body n i w) := by
  induction n generalizing i w with
  | zero => simp [loop.go]
  | succ n ih =>
    rw [loop.go, ih]
    congr 1
    push_cast
    ring

theorem loop_succ {σ : Type} (body : Int → σ → σ) (n : Nat) (w : σ) :
    loop body ((n + 1 : Nat) : Int) w = body n (loop body (n : Int) w) := by
  simp only [loop, Int.toNat_ofNat]
  rw [loop_go_succ]
  simp

theorem loop_zero {σ : Type} (body : Int → σ → σ) (w : σ) :
    loop body 0 w = w := rfl

/-- The reporting branch leaves position, momentum, inverse mass,
gravitational parameter and clock as they are. -/
theorem phase_report [OfScientific α] [Add α] [Mul α] [Neg α] [Div α] (sqrt : α → α)
    (w : World α) : phase (report sqrt w) = phase w := by
  simp [report, phase, Force_eq, p2v_eq, pv2T_eq]

/-- What one round computes from position, momentum, inverse mass,
gravitational parameter and clock depends on nothing else: not on the
control settings, the loop index or the remaining fields. -/
theorem phase_iteration_congr [OfScientific α] [Add α] [Mul α] [Neg α] [Div α]
    (sqrt : α → α) (dt : α) (c c' : control) (i i' : Int) (w w' : World α)
    (h : phase w = phase w') :
    phase (iteration sqrt dt c i w) = phase (iteration sqrt dt c' i' w') := by
  have key : ∀ (u u' : World α), phase u = phase u' →
      phase (iteration sqrt dt ⟨0, 0⟩ 0 u) = phase (iteration sqrt dt ⟨0, 0⟩ 0 u') := by
    intro u u' hu
    simp only [phase, Prod.mk.injEq] at hu
    obtain ⟨h1, h2, h3, h4, h5⟩ := hu
    simp [iteration, phase, Force_eq, PositionStep_eq, MomentumStep_eq, h1, h2, h3, h4, h5]
  have red : ∀ (d : control) (j : Int) (u : World α),
      phase (iteration sqrt dt d j u) = phase (iteration sqrt dt ⟨0, 0⟩ 0 u) := by
    intro d j u
    by_cases hd : d.printing ≠ 0 ∧ Int.tmod j d.printing = 0
    · have e : iteration sqrt dt d j u = iteration sqrt dt ⟨0, 0⟩ 0 (report sqrt u) := by
        simp [iteration, hd]
      rw [e]
      exact key _ _ (phase_report sqrt u)
    · have e : iteration sqrt dt d j u = iteration sqrt dt ⟨0, 0⟩ 0 u := by
        simp [iteration, hd]
      rw [e]
  rw [red c i w, red c' i' w']
  exact key w w' h

theorem phase_loop_go_congr [OfScientific α] [Add α] [Mul α] [Neg α] [Div α]
    (sqrt : α → α) (dt : α) (c c' : control) (n : Nat) (i i' : Int) (w w' : World α)
    (h : phase w = phase w') :
    phase (loop.go (iteration sqrt dt c) n i w)
      = phase (loop.go (iteration sqrt dt c') n i' w') := by
  induction n generalizing i i' w w' with
  | zero => simpa [loop.go] using h
  | succ n ih =>
    rw [loop.go, loop.go]
    exact ih _ _ _ _ (phase_iteration_congr sqrt dt c c' i i' w w' h)

/-- Over the reals, a round with step `-dt` undoes a round with step `dt` on
position, momentum and clock, whatever the two rounds report. -/
theorem phase_iteration_reverse (sqrt : ℝ → ℝ) (dt : ℝ) (c c' : control) (i i' : Int)
    (w : World ℝ) :
    phase (iteration sqrt (-dt) c' i' (iteration sqrt dt c i w)) = phase w := by
  have key : ∀ u : World ℝ,
      phase (iteration sqrt (-dt) ⟨0, 0⟩ 0 (iteration sqrt dt ⟨0, 0⟩ 0 u)) = phase u := by
    intro u
    simp only [iteration, phase, Force_eq, PositionStep_eq, MomentumStep_eq, ne_eq,
      not_true_eq_false, false_and, if_false, Prod.mk.injEq]
    refine ⟨?_, ?_, trivial, trivial, ?_⟩
    · funext j
      ring_nf
    · funext j
      ring_nf
    · ring
  have e1 := phase_iteration_congr sqrt (-dt) c' ⟨0, 0⟩ i' 0
    (iteration sqrt dt c i w) (iteration sqrt dt ⟨0, 0⟩ 0 w)
    (phase_iteration_congr sqrt dt c ⟨0, 0⟩ i 0 w w rfl)
  rw [e1]
  exact key w

theorem phase_loop_go_reverse (sqrt : ℝ → ℝ) (dt : ℝ) (c c' : control) (n : Nat)
    (i i' : Int) (w0 w1 : World ℝ)
    (h : phase w1 = phase (loop.go (iteration sqrt dt c) n i w0)) :
    phase (loop.go (iteration sqrt (-dt) c') n i' w1) = phase w0 := by
  induction n generalizing i' w1 with
  | zero => simpa [loop.go] using h
  | succ n ih =>
    rw [loop_go_succ] at h
    rw [loop.go]
    apply ih
    rw [phase_iteration_congr sqrt (-dt) c' c' i' i' w1 _ h]
    exact phase_iteration_reverse sqrt dt c c' _ _ _

theorem clockWrites_append (l l' : List (Event α)) :
    clockWrites (l ++ l') = clockWrites l ++ clockWrites l' := by
  induction l with
  | nil => rfl
  | cons e l ih => cases e <;> simp [clockWrites, ih]

theorem clockWrites_report [OfScientific α] [Add α] [Mul α] [Neg α] [Div α] (sqrt : α → α)
    (w : World α) : clockWrites (report sqrt w).log = clockWrites w.log := by
  simp [report, clockWrites_append, clockWrites]

/-- One round assigns to the clock twice, each time adding `dt * 0.5`. -/
theorem clock_iteration [OfScientific α] [Add α] [Mul α] [Neg α] [Div α] (sqrt : α → α)
    (dt : α) (c : control) (i : Int) (w : World α) :
    (iteration sqrt dt c i w).t = w.t + dt * 0.5 + dt * 0.5 ∧
    clockWrites (iteration sqrt dt c i w).log
      = clockWrites w.log ++ [dt * 0.5, dt * 0.5] := by
  have ht : (report sqrt w).t = w.t := by simp [report]
  have hl := clockWrites_report sqrt w
  by_cases hd : c.printing ≠ 0 ∧ Int.tmod i c.printing = 0
  · simp [iteration, hd, clockWrites_append, clockWrites, ht, hl]
  · simp [iteration, hd, clockWrites_append, clockWrites]

theorem clock_loop_go (sqrt : ℝ → ℝ) (dt : ℝ) (c : control) (n : Nat) (i : Int)
    (w : World ℝ) :
    (loop.go (iteration sqrt dt c) n i w).t = w.t + n * dt ∧
    clockWrites (loop.go (iteration sqrt dt c) n i w).log
      = clockWrites w.log ++ List.replicate (2 * n) (dt / 2) := by
  induction n with
  | zero => simp [loop.go]
  | succ n ih =>
    rw [loop_go_succ]
    obtain ⟨h1, h2⟩ := clock_iteration sqrt dt c (i + n) (loop.go (iteration sqrt dt c) n i w)
    rw [h1, h2, ih.1, ih.2]
    constructor
    · push_cast
      norm_num
      ring
    · have e : dt * 0.5 = dt / 2 := by norm_num; ring
      rw [e, List.append_assoc]
      congr 1
      rw [show 2 * (n + 1) = 2 * n + 2 by ring, List.replicate_add]
      rfl

/-- The reporting branch leaves inverse mass and gravitational parameter as
they are, and only appends to the ghost record. -/
theorem report_frame [OfScientific α] [Add α] [Mul α] [Neg α] [Div α] (sqrt : α → α)
    (w : World α) :
    (report sqrt w).a.im = w.a.im ∧ (report sqrt w).a.GMm = w.a.GMm ∧
    ∀ e ∈ w.log, e ∈ (report sqrt w).log := by
  refine ⟨?_, ?_, fun e he => ?_⟩
  · simp [report, Force_eq, p2v_eq, pv2T_eq]
  · simp [report, Force_eq, p2v_eq, pv2T_eq]
  · simp [report, he]

/-- One round leaves inverse mass and gravitational parameter as they are,
keeps what the ghost record holds and records a position step. -/
theorem iteration_frame [OfScientific α] [Add α] [Mul α] [Neg α] [Div α] (sqrt : α → α)
    (dt : α) (c : control) (i : Int) (w : World α) :
    (iteration sqrt dt c i w).a.im = w.a.im ∧ (iteration sqrt dt c i w).a.GMm = w.a.GMm ∧
    (∀ e ∈ w.log, e ∈ (iteration sqrt dt c i w).log) ∧
    Event.PositionStep ∈ (iteration sqrt dt c i w).log := by
  obtain ⟨h1, h2, h3⟩ := report_frame sqrt w
  by_cases hd : c.printing ≠ 0 ∧ Int.tmod i c.printing = 0
  · refine ⟨?_, ?_, fun e he => ?_, ?_⟩
    · simp [iteration, hd, Force_eq, PositionStep_eq, MomentumStep_eq, h1]
    · simp [iteration, hd, Force_eq, PositionStep_eq, MomentumStep_eq, h2]
    · simp [iteration, hd, h3 e he]
    · simp [iteration, hd]
  · refine ⟨?_, ?_, fun e he => ?_, ?_⟩
    · simp [iteration, hd, Force_eq, PositionStep_eq, MomentumStep_eq]
    · simp [iteration, hd, Force_eq, PositionStep_eq, MomentumStep_eq]
    · simp [iteration, hd, he]
    · simp [iteration, hd]

theorem loop_go_frame [OfScientific α] [Add α] [Mul α] [Neg α] [Div α] (sqrt : α → α)
    (dt : α) (c : control) (n : Nat) (i : Int) (w : World α) :
    (loop.go (iteration sqrt dt c) n i w).a.im = w.a.im ∧
    (loop.go (iteration sqrt dt c) n i w).a.GMm = w.a.GMm ∧
    (∀ e ∈ w.log, e ∈ (loop.go (iteration sqrt dt c) n i w).log) := by
  induction n generalizing i w with
  | zero => exact ⟨rfl, rfl, fun e he => he⟩
  | succ n ih =>
    obtain ⟨h1, h2, h3, _⟩ := iteration_frame sqrt dt c i w
    obtain ⟨k1, k2, k3⟩ := ih (i + 1) (iteration sqrt dt c i w)
    rw [loop.go]
    exact ⟨k1.trans h1, k2.trans h2, fun e he => k3 e (h3 e he)⟩

end Rounds

/-! ## The force law -/

/-- C1: over the reals, for a particle that is not at the origin, `Force`
stores the radius `r = sqrt (sum_i x_i^2)`, which is positive, the potential
energy `V = -GMm / r` and the force `F_i = -GMm * x_i / r^3` in every
component `i`. -/
theorem Force_inverse_square (a : particle ℝ) (h : a.x ≠ 0) :
    (Force Real.sqrt a).r = Real.sqrt (∑ i, a.x i ^ 2) ∧
    0 < (Force Real.sqrt a).r ∧
    (Force Real.sqrt a).V = - a.GMm / (Force Real.sqrt a).r ∧
    ∀ i, (Force Real.sqrt a).F i = - a.GMm * a.x i / (Force Real.sqrt a).r ^ 3 := by
  have hR : (0.0 : ℝ) + a.x 0 * a.x 0 + a.x 1 * a.x 1 = ∑ i, a.x i ^ 2 := by
    rw [Fin.sum_univ_two]; norm_num; ring
  have hnn : (0 : ℝ) ≤ ∑ i, a.x i ^ 2 := Finset.sum_nonneg (fun i _ => sq_nonneg (a.x i))
  have hpos : (0 : ℝ) < ∑ i, a.x i ^ 2 := by
    rcases hnn.lt_or_eq with h1 | h1
    · exact h1
    · exfalso
      apply h
      funext i
      have := (Finset.sum_eq_zero_iff_of_nonneg (fun i _ => sq_nonneg (a.x i))).1 h1.symm i
        (Finset.mem_univ i)
      simpa using this
  rw [Force_eq, hR]
  refine ⟨rfl, Real.sqrt_pos.2 hpos, rfl, fun i => ?_⟩
  show _ / (Real.sqrt (∑ i, a.x i ^ 2) * ∑ i, a.x i ^ 2) = _ / Real.sqrt (∑ i, a.x i ^ 2) ^ 3
  have h3 : Real.sqrt (∑ i, a.x i ^ 2) ^ 3
      = Real.sqrt (∑ i, a.x i ^ 2) * ∑ i, a.x i ^ 2 := by
    rw [pow_succ, Real.sq_sqrt hnn, mul_comm]
  rw [h3]

/-- Witness of C1: the particle at `(3, 4)` with `GMm = 1`. -/
theorem Force_inverse_square_witness :
    (![3, 4] : Fin D → ℝ) ≠ 0 ∧
    (Force Real.sqrt
      { x := ![3, 4], p := 0, F := 0, im := 1, GMm := 1, v := 0, T := 0, V := 0, r := 0 }).r
      = Real.sqrt (∑ i, (![3, 4] : Fin D → ℝ) i ^ 2) :=
  ⟨by
    intro h
    have := congrFun h 0
    norm_num at this,
   (Force_inverse_square
      { x := ![3, 4], p := 0, F := 0, im := 1, GMm := 1, v := 0, T := 0, V := 0, r := 0 }
      (by
        intro h
        have := congrFun h 0
        norm_num at this)).1⟩

/-- C7, read over the reals, where no operation rounds, overflows or
underflows: for every `r > 0` and every `G`, `Force` on a particle at position
`(r, 0)` with `GMm = G` stores the force `(-G / r^2, 0)`, the potential energy
`-G / r` and the radius `r`. -/
theorem Force_on_axis (a : particle ℝ) (r G : ℝ) (hr : 0 < r) :
    (Force Real.sqrt { a with x := ![r, 0], GMm := G }).F = ![-G / r ^ 2, 0] ∧
    (Force Real.sqrt { a with x := ![r, 0], GMm := G }).V = -G / r ∧
    (Force Real.sqrt { a with x := ![r, 0], GMm := G }).r = r := by
  have hR : (0.0 : ℝ) + r * r + 0 * 0 = r ^ 2 := by norm_num; ring
  have hs : Real.sqrt (r ^ 2) = r := Real.sqrt_sq hr.le
  rw [Force_eq]
  simp only [Matrix.cons_val_zero, Matrix.cons_val_one, Matrix.head_cons, hR, hs]
  refine ⟨?_, trivial, trivial⟩
  funext i
  fin_cases i
  · simp only [Fin.zero_eta, Matrix.cons_val_zero]
    field_simp
    ring
  · simp

/-- Witness of C7: radius `2` and `G = 3`. -/
theorem Force_on_axis_witness :
    (0 : ℝ) < 2 ∧
    (Force Real.sqrt
      { x := ![2, 0], p := 0, F := 0, im := 1, GMm := 3, v := 0, T := 0, V := 0, r := 0 }).V
      = -3 / 2 :=
  ⟨by norm_num,
   (Force_on_axis
      { x := 0, p := 0, F := 0, im := 1, GMm := 0, v := 0, T := 0, V := 0, r := 0 } 2 3
      (by norm_num)).2.1⟩

/-! ## Velocity, momentum and kinetic energy -/

/-- C5, read over the reals, where no operation rounds: for a particle with
`im > 0`, `v2p` followed by `p2v` leaves every component of the velocity as it
was. -/
theorem p2v_v2p_velocity (a : particle ℝ) (h : 0 < a.im) :
    (p2v (v2p a)).v = a.v := by
  rw [p2v_eq, v2p_eq]
  funext i
  show a.v i / a.im * a.im = a.v i
  field_simp

/-- Witness of C5: inverse mass `2` and velocity `(0, 1/3)`. -/
theorem p2v_v2p_velocity_witness :
    (0 : ℝ) < 2 ∧
    (p2v (v2p
      ({ x := 0, p := 0, F := 0, im := 2, GMm := 1, v := ![0, 1 / 3], T := 0, V := 0, r := 0 } :
        particle ℝ))).v = ![0, 1 / 3] :=
  ⟨by norm_num,
   p2v_v2p_velocity
      { x := 0, p := 0, F := 0, im := 2, GMm := 1, v := ![0, 1 / 3], T := 0, V := 0, r := 0 }
      (by norm_num)⟩

/-- C6: over the reals, `pv2T` stores `T = 0.5 * sum_i v_i * p_i`; and for a
particle with `im > 0`, after `p2v` and then `pv2T` the kinetic energy is
`0.5 * m * sum_i v_i^2` with `m = 1 / im` and `v` the velocity just stored,
which is `0.5 * im * sum_i p_i^2`, and it is not negative. -/
theorem pv2T_kinetic_energy (a : particle ℝ) :
    (pv2T a).T = 0.5 * ∑ i, a.v i * a.p i ∧
    (0 < a.im →
      (pv2T (p2v a)).T = 0.5 * (1 / a.im) * ∑ i, (pv2T (p2v a)).v i ^ 2 ∧
      (pv2T (p2v a)).T = 0.5 * a.im * ∑ i, a.p i ^ 2 ∧
      0 ≤ (pv2T (p2v a)).T) := by
  refine ⟨?_, fun h => ?_⟩
  · rw [pv2T_eq, Fin.sum_univ_two]
    show (0.0 : ℝ) + 0.5 * a.v 0 * a.p 0 + 0.5 * a.v 1 * a.p 1 = _
    norm_num
    ring
  · have hT : (pv2T (p2v a)).T = 0.5 * a.im * ∑ i, a.p i ^ 2 := by
      rw [pv2T_eq, p2v_eq, Fin.sum_univ_two]
      show (0.0 : ℝ) + 0.5 * (a.p 0 * a.im) * a.p 0 + 0.5 * (a.p 1 * a.im) * a.p 1 = _
      norm_num
      ring
    have hv : ∀ i, (pv2T (p2v a)).v i = a.p i * a.im := by
      intro i
      rw [pv2T_eq, p2v_eq]
    refine ⟨?_, hT, ?_⟩
    · rw [hT]
      simp only [hv, Fin.sum_univ_two]
      field_simp
      ring
    · rw [hT]
      have : (0 : ℝ) ≤ ∑ i, a.p i ^ 2 := Finset.sum_nonneg (fun i _ => sq_nonneg (a.p i))
      have h5 : (0 : ℝ) ≤ 0.5 := by norm_num
      exact mul_nonneg (mul_nonneg h5 h.le) this

/-- Witness of C6: inverse mass `2` and momentum `(3, 4)`. -/
theorem pv2T_kinetic_energy_witness :
    (0 : ℝ) < 2 ∧
    (pv2T (p2v
      ({ x := 0, p := ![3, 4], F := 0, im := 2, GMm := 1, v := 0, T := 0, V := 0, r := 0 } :
        particle ℝ))).T = 0.5 * 2 * ∑ i, (![3, 4] : Fin D → ℝ) i ^ 2 :=
  ⟨by norm_num,
   ((pv2T_kinetic_energy
      { x := 0, p := ![3, 4], F := 0, im := 2, GMm := 1, v := 0, T := 0, V := 0, r := 0 }).2
      (by norm_num)).2.1⟩

/-! ## The force law at the origin -/

theorem XR.zero_lit : (0.0 : XR) = XR.fin 0 := by
  show XR.fin (0.0 : ℚ) = XR.fin 0
  norm_num

theorem XR.fin_add (a b : ℚ) : XR.fin a + XR.fin b = XR.fin (a + b) := rfl

theorem XR.fin_mul (a b : ℚ) : XR.fin a * XR.fin b = XR.fin (a * b) := rfl

theorem XR.sqrt_zero : XR.sqrt (XR.fin 0) = XR.fin 0 := by
  simp [XR.sqrt, Rat.sqrt]

/-- The sum of squares and the radius that `Force` computes at the origin. -/
theorem XR.origin_radius :
    (0.0 : XR) + XR.fin 0 * XR.fin 0 + XR.fin 0 * XR.fin 0 = XR.fin 0 ∧
    XR.sqrt ((0.0 : XR) + XR.fin 0 * XR.fin 0 + XR.fin 0 * XR.fin 0) = XR.fin 0 := by
  have h : (0.0 : XR) + XR.fin 0 * XR.fin 0 + XR.fin 0 * XR.fin 0 = XR.fin 0 := by
    rw [XR.zero_lit, XR.fin_mul, XR.fin_add, XR.fin_add]
    norm_num
  rw [h]
  exact ⟨rfl, XR.sqrt_zero⟩

/-- Anything times zero over zero is NaN. -/
theorem XR.mul_zero_div_zero (g : XR) : g * XR.fin 0 / (XR.fin 0 * XR.fin 0) = XR.nan := by
  rw [XR.fin_mul]
  cases g with
  | fin q =>
    rw [XR.fin_mul]
    show XR.div (XR.fin (q * 0)) (XR.fin (0 * 0)) = XR.nan
    simp [XR.div, XR.ofSign]
  | pinf =>
    show XR.div (XR.mul XR.pinf (XR.fin 0)) (XR.fin (0 * 0)) = XR.nan
    simp [XR.div, XR.mul, XR.ofSign]
  | ninf =>
    show XR.div (XR.mul XR.ninf (XR.fin 0)) (XR.fin (0 * 0)) = XR.nan
    simp [XR.div, XR.mul, XR.ofSign]
  | nan => rfl

/-- Nothing over zero is a rational number. -/
theorem XR.div_zero_ne_fin (g : XR) (q : ℚ) : g / XR.fin 0 ≠ XR.fin q := by
  cases g with
  | fin a =>
    show XR.div (XR.fin a) (XR.fin 0) ≠ XR.fin q
    simp only [XR.div, if_true, XR.ofSign]
    split_ifs <;> simp
  | pinf =>
    show XR.div XR.pinf (XR.fin 0) ≠ XR.fin q
    simp [XR.div]
  | ninf =>
    show XR.div XR.ninf (XR.fin 0) ≠ XR.fin q
    simp [XR.div]
  | nan =>
    show XR.div XR.nan (XR.fin 0) ≠ XR.fin q
    simp [XR.div]

/-- C8, as the code behaves: `Force` contains no test of the radius and no
error path, so on a particle at the origin the call returns; in arithmetic with
the IEEE special values it stores the radius `0`, NaN in every component of
the force, and a potential energy `-GMm / 0` that is no rational number. -/
theorem Force_origin_returns (a : particle XR) (h : a.x = fun _ => XR.fin 0) :
    call (Force XR.sqrt) a = Outcome.returned (Force XR.sqrt a) ∧
    (Force XR.sqrt a).r = XR.fin 0 ∧
    (∀ i, (Force XR.sqrt a).F i = XR.nan) ∧
    (Force XR.sqrt a).V = - a.GMm / XR.fin 0 ∧
    (∀ q : ℚ, (Force XR.sqrt a).V ≠ XR.fin q) := by
  have hV : (Force XR.sqrt a).V = - a.GMm / XR.fin 0 := by
    rw [Force_eq]
    simp only [h, XR.origin_radius.2]
  refine ⟨rfl, ?_, fun i => ?_, hV, fun q => ?_⟩
  · rw [Force_eq]
    simp only [h, XR.origin_radius.2]
  · rw [Force_eq]
    simp only [h, XR.origin_radius.1, XR.origin_radius.2]
    exact XR.mul_zero_div_zero _
  · rw [hV]
    exact XR.div_zero_ne_fin _ q

/-- Witness of C8 as the code behaves: a particle at the origin with
`GMm = 1` and inverse mass `1`. -/
theorem Force_origin_returns_witness :
    (Force XR.sqrt
      { x := fun _ => XR.fin 0, p := fun _ => XR.fin 0, F := fun _ => XR.fin 0, im := XR.fin 1,
        GMm := XR.fin 1, v := fun _ => XR.fin 0, T := XR.fin 0, V := XR.fin 0,
        r := XR.fin 0 }).r = XR.fin 0 :=
  (Force_origin_returns
    { x := fun _ => XR.fin 0, p := fun _ => XR.fin 0, F := fun _ => XR.fin 0, im := XR.fin 1,
      GMm := XR.fin 1, v := fun _ => XR.fin 0, T := XR.fin 0, V := XR.fin 0,
      r := XR.fin 0 } rfl).2.1

/-- C8 fails on the code: `Force` on the particle at `(0, 0)` with `GMm = 1`
does not end with a `DomainError`; it returns, with `-inf` stored as potential
energy and NaN as force. -/
theorem Force_origin_no_DomainError :
    call (Force XR.sqrt)
        { x := fun _ => XR.fin 0, p := fun _ => XR.fin 0, F := fun _ => XR.fin 0,
          im := XR.fin 1, GMm := XR.fin 1, v := fun _ => XR.fin 0, T := XR.fin 0,
          V := XR.fin 0, r := XR.fin 0 }
      ≠ Outcome.failed SimError.DomainError ∧
    call (Force XR.sqrt)
        { x := fun _ => XR.fin 0, p := fun _ => XR.fin 0, F := fun _ => XR.fin 0,
          im := XR.fin 1, GMm := XR.fin 1, v := fun _ => XR.fin 0, T := XR.fin 0,
          V := XR.fin 0, r := XR.fin 0 }
      = Outcome.returned
        { x := fun _ => XR.fin 0, p := fun _ => XR.fin 0, F := fun _ => XR.nan,
          im := XR.fin 1, GMm := XR.fin 1, v := fun _ => XR.fin 0, T := XR.fin 0,
          V := XR.ninf, r := XR.fin 0 } := by
  constructor
  · intro h
    cases h
  · show Outcome.returned _ = Outcome.returned _
    congr 1
    have hV : - XR.fin 1 / XR.fin 0 = XR.ninf := by
      show XR.div (XR.fin (-1)) (XR.fin 0) = XR.ninf
      simp [XR.div, XR.ofSign]
    rw [Force_eq]
    simp only [XR.origin_radius.1, XR.sqrt_zero, XR.mul_zero_div_zero, hV]

/-! ## The integrator -/

/-- C2: over the reals, one iteration of `LeapfrogDynamics` with reporting
disabled (`printing = 0`) moves the position a half step to
`xh_i = x_i + dt/2 * p_i * im`, evaluates the force at `xh`, which away from
the origin is the inverse-square force `F_i = -GMm * xh_i / |xh|^3`, moves the
momentum to `p'_i = p_i + dt * F_i`, and moves the position to
`xh_i + dt/2 * p'_i * im` with the new momentum; the force, potential energy
and radius it leaves in the particle are those computed at `xh`. -/
theorem LeapfrogDynamics_one_iteration (a : particle ℝ) (dt t : ℝ) (verbose : Int) :
    let xh : Fin D → ℝ := fun i => a.x i + dt / 2 * a.p i * a.im
    let f : particle ℝ := Force Real.sqrt { a with x := xh }
    let p' : Fin D → ℝ := fun i => a.p i + dt * f.F i
    let w : World ℝ := LeapfrogDynamics Real.sqrt a dt t 1 { verbose := verbose, printing := 0 }
    (xh ≠ 0 → ∀ i, f.F i = - a.GMm * xh i / Real.sqrt (∑ j, xh j ^ 2) ^ 3) ∧
    w.a.p = p' ∧
    w.a.x = (fun i => xh i + dt / 2 * p' i * a.im) ∧
    w.a.F = f.F ∧ w.a.V = f.V ∧ w.a.r = f.r := by
  intro xh f p' w
  have hh : dt * 0.5 = dt / 2 := by norm_num; ring
  have hw : w = iteration Real.sqrt dt { verbose := verbose, printing := 0 } 0
      { a := a, t := t, cout := [], log := [] } := rfl
  refine ⟨fun _ i => ?_, ?_, ?_, ?_, ?_, ?_⟩
  · have hnn : (0 : ℝ) ≤ ∑ j, xh j ^ 2 := Finset.sum_nonneg (fun j _ => sq_nonneg (xh j))
    have hR : (0.0 : ℝ) + xh 0 * xh 0 + xh 1 * xh 1 = ∑ j, xh j ^ 2 := by
      rw [Fin.sum_univ_two]; norm_num; ring
    show (Force Real.sqrt { a with x := xh }).F i = _
    rw [Force_eq]
    show - a.GMm * xh i / (Real.sqrt (0.0 + xh 0 * xh 0 + xh 1 * xh 1)
      * (0.0 + xh 0 * xh 0 + xh 1 * xh 1)) = _
    rw [hR, pow_succ, Real.sq_sqrt hnn, mul_comm (∑ j, xh j ^ 2)]
  all_goals
    rw [hw]
    simp only [iteration, PositionStep_eq, MomentumStep_eq, Force_eq, hh, p', f, xh]
    simp

/-- Witness of C2: position `(1, 0)`, momentum `(0, 2)`, inverse mass `1`,
`GMm = 1` and `dt = 1`, where the half-stepped position is `(1, 1)`. -/
theorem LeapfrogDynamics_one_iteration_witness :
    (fun i => (![1, 0] : Fin D → ℝ) i + 1 / 2 * (![0, 2] : Fin D → ℝ) i * 1) ≠ 0 ∧
    ∀ i, (Force Real.sqrt
          { x := fun i => (![1, 0] : Fin D → ℝ) i + 1 / 2 * (![0, 2] : Fin D → ℝ) i * 1,
            p := ![0, 2], F := 0, im := 1, GMm := 1, v := 0, T := 0, V := 0, r := 0 }).F i
      = - 1 * ((![1, 0] : Fin D → ℝ) i + 1 / 2 * (![0, 2] : Fin D → ℝ) i * 1) /
          Real.sqrt (∑ j, ((![1, 0] : Fin D → ℝ) j + 1 / 2 * (![0, 2] : Fin D → ℝ) j * 1) ^ 2)
            ^ 3 :=
  ⟨by
    intro h
    have := congrFun h 0
    norm_num at this,
   (LeapfrogDynamics_one_iteration
      { x := ![1, 0], p := ![0, 2], F := 0, im := 1, GMm := 1, v := 0, T := 0, V := 0, r := 0 }
      1 0 1).1
      (by
        intro h
        have := congrFun h 0
        norm_num at this)⟩

/-! ## Configurations that the specification calls invalid -/

/-- The remainder of `-1/ρ` around `s` beyond its linear part, at `r'` and at
`r`. -/
theorem remainder_bound (r s r' D D' : ℝ) (hr : 0 < r) (hs : 0 < s) (hr' : 0 < r')
    (hD : (r - s) ^ 2 ≤ D) :
    -(r' ^ 2 - D' - r ^ 2 + D) / (2 * s ^ 3) - 1 / r' + 1 / r
      ≤ D' / (2 * s ^ 3) + D / (s ^ 2 * r) := by
  have key : D' / (2 * s ^ 3) + D / (s ^ 2 * r)
      - (-(r' ^ 2 - D' - r ^ 2 + D) / (2 * s ^ 3) - 1 / r' + 1 / r)
      = (r' - s) ^ 2 * (r' + 2 * s) / (2 * s ^ 3 * r')
        + (D - (r - s) ^ 2) * (r + 2 * s) / (2 * s ^ 3 * r) := by
    field_simp
    ring
  have h1 : 0 ≤ (r' - s) ^ 2 * (r' + 2 * s) / (2 * s ^ 3 * r') := by positivity
  have h2 : 0 ≤ (D - (r - s) ^ 2) * (r + 2 * s) / (2 * s ^ 3 * r) := by
    have : 0 ≤ D - (r - s) ^ 2 := by linarith
    positivity
  linarith

/-- With angular momentum `3` the energy is at least `-1/18`. -/
theorem energy_lower (r P : ℝ) (hr : 0 < r) (hLag : 9 ≤ r ^ 2 * P) :
    -1 / 18 ≤ 0.5 * P - 1 / r := by
  have h2 : (0.5 * P - 1 / r) = (0.5 * (r ^ 2 * P) - r) / r ^ 2 := by
    field_simp
    ring
  rw [h2, le_div_iff₀ (by positivity)]
  norm_num
  nlinarith [sq_nonneg (r - 9)]

/-- With angular momentum `3` and energy at most `-1/18 + 5.5e-5` the radius
is at least `8.7`. -/
theorem radius_lower (r P : ℝ) (hr : 0 < r) (hLag : 9 ≤ r ^ 2 * P)
    (hE : 0.5 * P - 1 / r ≤ -1 / 18 + 11 / 200000) : 87 / 10 ≤ r := by
  by_contra hlt
  push_neg at hlt
  have h1 : (0.5 * P - 1 / r) * r ^ 2 ≤ (-1 / 18 + 11 / 200000) * r ^ 2 :=
    mul_le_mul_of_nonneg_right hE (by positivity)
  have h2 : (0.5 * P - 1 / r) * r ^ 2 = 0.5 * (r ^ 2 * P) - r := by
    field_simp
    ring
  rw [h2] at h1
  norm_num at h1
  nlinarith [mul_pos (sub_pos.2 hlt) hr, mul_pos (sub_pos.2 hlt) (sub_pos.2 hlt)]

/-- Lagrange's identity at angular momentum `3`. -/
theorem lagrange_cross (x0 x1 p0 p1 : ℝ) (hL : x0 * p1 - x1 * p0 = 3) :
    0 < x0 ^ 2 + x1 ^ 2 ∧
    (x0 ^ 2 + x1 ^ 2) * (p0 ^ 2 + p1 ^ 2) = (x0 * p0 + x1 * p1) ^ 2 + 9 := by
  have hLag : (x0 ^ 2 + x1 ^ 2) * (p0 ^ 2 + p1 ^ 2)
      = (x0 * p0 + x1 * p1) ^ 2 + (x0 * p1 - x1 * p0) ^ 2 := by ring
  rw [hL] at hLag
  norm_num at hLag
  refine ⟨?_, hLag⟩
  by_contra hn
  have h0 : x0 ^ 2 + x1 ^ 2 = 0 := le_antisymm (not_lt.1 hn) (by positivity)
  rw [h0] at hLag
  nlinarith [sq_nonneg (x0 * p0 + x1 * p1)]

/-- Where the orbit is: radius `r`, squared momentum `P`, scalar product `c`
of position and momentum, squared radius `S` after the half position step. -/
theorem orbit_region (r P c S : ℝ) (hr : 0 < r) (hLag : r ^ 2 * P = c ^ 2 + 9)
    (hE : 0.5 * P - 1 / r ≤ -1 / 18 + 11 / 200000)
    (hS : S = r ^ 2 + 1 / 1000 * c + 1 / 4000000 * P) :
    87 / 10 ≤ r ∧ P ≤ 1189 / 10000 ∧ (869 / 100) ^ 2 ≤ S := by
  have hPnn : 0 ≤ P := by
    by_contra hneg
    push_neg at hneg
    have : r ^ 2 * P < 0 := mul_neg_of_pos_of_neg (by positivity) hneg
    nlinarith [sq_nonneg c]
  have hr87 : 87 / 10 ≤ r := radius_lower r P hr (by rw [hLag]; nlinarith [sq_nonneg c]) hE
  have hinv : 1 / r ≤ 10 / 87 := by
    have h := one_div_le_one_div_of_le (by norm_num : (0 : ℝ) < 87 / 10) hr87
    rwa [show (1 : ℝ) / (87 / 10) = 10 / 87 by norm_num] at h
  have hP1 : P ≤ 1189 / 10000 := by
    have h5 : (0.5 : ℝ) = 1 / 2 := by norm_num
    rw [h5] at hE
    linarith
  refine ⟨hr87, hP1, ?_⟩
  have hc : c ^ 2 ≤ (345 / 1000 * r) ^ 2 := by
    have : c ^ 2 = r ^ 2 * P - 9 := by linarith
    rw [this]
    nlinarith [mul_nonneg (sq_nonneg r) (sub_nonneg.2 hP1)]
  have hc' : -(345 / 1000 * r) ≤ c := (abs_le_of_sq_le_sq' hc (by positivity)).1
  rw [hS]
  nlinarith

/-- The squared momentum `Q` after the momentum step. -/
theorem kick_bound (P F2 pF Q S : ℝ) (hP : P ≤ 1189 / 10000) (hS : (869 / 100) ^ 2 ≤ S)
    (hF2 : F2 = 1 / S ^ 2) (hpF : 2 * pF ≤ P + F2)
    (hQ : Q = P + 2 / 1000 * pF + 1 / 1000000 * F2) : Q ≤ 1191 / 10000 := by
  have hSpos : 0 < S := lt_of_lt_of_le (by norm_num) hS
  have hF : F2 ≤ 1 / 5000 := by
    rw [hF2]
    exact one_div_le_one_div_of_le (by norm_num) (by nlinarith)
  rw [hQ]
  nlinarith

/-- The size of the bound on what one round adds to the energy. -/
theorem step_size (r s P Q : ℝ) (hr : 87 / 10 ≤ r) (hs : 869 / 100 ≤ s)
    (hP : P ≤ 1189 / 10000) (hQ : Q ≤ 1191 / 10000) :
    (1 / 4000000 * Q) / (2 * s ^ 3) + (1 / 4000000 * P) / (s ^ 2 * r)
      ≤ 11 / 100000000000 := by
  have hs3 : 656 ≤ s ^ 3 := by
    nlinarith [mul_nonneg (sub_nonneg.2 hs) (sub_nonneg.2 hs), sq_nonneg s]
  have hs2r : 656 ≤ s ^ 2 * r := by
    nlinarith [mul_nonneg (sub_nonneg.2 hs) (sub_nonneg.2 hs),
      mul_nonneg (sub_nonneg.2 hs) (sub_nonneg.2 hr), sq_nonneg s]
  have h1 : (1 / 4000000 * Q) / (2 * s ^ 3) ≤ (1 / 4000000 * (1191 / 10000)) / (2 * 656) :=
    div_le_div₀ (by norm_num) (by linarith) (by norm_num) (by linarith)
  have h2 : (1 / 4000000 * P) / (s ^ 2 * r) ≤ (1 / 4000000 * (1189 / 10000)) / 656 :=
    div_le_div₀ (by norm_num) (by linarith) (by norm_num) (by linarith)
  have h3 : (1 / 4000000 * (1191 / 10000 : ℝ)) / (2 * 656)
      + (1 / 4000000 * (1189 / 10000)) / 656 ≤ 11 / 100000000000 := by norm_num
  linarith

/-- One round of the integrator with `dt = 1/1000`, unit inverse mass and
gravitational parameter, in components: `y` is the half-stepped position, `F`
the force there, `q` the new momentum and `z` the new position.  The angular
momentum stays `3` and the energy grows by at most `1.1e-10`. -/
theorem kepler_step (x0 x1 p0 p1 y0 y1 s F0 F1 q0 q1 z0 z1 : ℝ)
    (hy0 : y0 = x0 + 1 / 2000 * p0) (hy1 : y1 = x1 + 1 / 2000 * p1)
    (hs : s = √(y0 ^ 2 + y1 ^ 2))
    (hF0 : F0 = -y0 / (s * (y0 ^ 2 + y1 ^ 2))) (hF1 : F1 = -y1 / (s * (y0 ^ 2 + y1 ^ 2)))
    (hq0 : q0 = p0 + 1 / 1000 * F0) (hq1 : q1 = p1 + 1 / 1000 * F1)
    (hz0 : z0 = y0 + 1 / 2000 * q0) (hz1 : z1 = y1 + 1 / 2000 * q1)
    (hL : x0 * p1 - x1 * p0 = 3)
    (hE : 0.5 * (p0 ^ 2 + p1 ^ 2) - 1 / √(x0 ^ 2 + x1 ^ 2) ≤ -1 / 18 + 11 / 200000) :
    z0 * q1 - z1 * q0 = 3 ∧
    0.5 * (q0 ^ 2 + q1 ^ 2) - 1 / √(z0 ^ 2 + z1 ^ 2)
      ≤ 0.5 * (p0 ^ 2 + p1 ^ 2) - 1 / √(x0 ^ 2 + x1 ^ 2) + 11 / 100000000000 := by
  -- radius before the step
  obtain ⟨hR2pos, hLag⟩ := lagrange_cross x0 x1 p0 p1 hL
  obtain ⟨r, hr⟩ : ∃ r, r = √(x0 ^ 2 + x1 ^ 2) := ⟨_, rfl⟩
  obtain ⟨P, hP⟩ : ∃ P, P = p0 ^ 2 + p1 ^ 2 := ⟨_, rfl⟩
  obtain ⟨c, hc⟩ : ∃ c, c = x0 * p0 + x1 * p1 := ⟨_, rfl⟩
  obtain ⟨S, hS⟩ : ∃ S, S = y0 ^ 2 + y1 ^ 2 := ⟨_, rfl⟩
  rw [← hr, ← hP] at hE
  rw [← hP, ← hc] at hLag
  rw [← hS] at hs hF0 hF1
  have hrpos : 0 < r := by rw [hr]; exact Real.sqrt_pos.2 hR2pos
  have hr2 : r ^ 2 = x0 ^ 2 + x1 ^ 2 := by rw [hr]; exact Real.sq_sqrt hR2pos.le
  have hSeq : S = r ^ 2 + 1 / 1000 * c + 1 / 4000000 * P := by
    rw [hS, hy0, hy1, hr2, hP, hc]; ring
  obtain ⟨hr87, hP1, hSlow⟩ := orbit_region r P c S hrpos (by rw [hr2]; exact hLag) hE hSeq
  have hPnn : 0 ≤ P := by rw [hP]; positivity
  have hSpos : 0 < S := lt_of_lt_of_le (by norm_num) hSlow
  have hspos : 0 < s := by rw [hs]; exact Real.sqrt_pos.2 hSpos
  have hs2 : s ^ 2 = S := by rw [hs]; exact Real.sq_sqrt hSpos.le
  have hs869 : 869 / 100 ≤ s :=
    (abs_le_of_sq_le_sq' (by rw [hs2]; exact hSlow : (869 / 100 : ℝ) ^ 2 ≤ s ^ 2) hspos.le).2
  -- the force
  have hsS : s * S ≠ 0 := by positivity
  have hF2 : F0 ^ 2 + F1 ^ 2 = 1 / S ^ 2 := by
    rw [hF0, hF1, div_pow, div_pow, ← add_div, neg_sq, neg_sq, ← hS, mul_pow, hs2]
    field_simp
  -- the momentum after the kick
  obtain ⟨Q, hQ⟩ : ∃ Q, Q = q0 ^ 2 + q1 ^ 2 := ⟨_, rfl⟩
  have hQnn : 0 ≤ Q := by rw [hQ]; positivity
  have hQ1 : Q ≤ 1191 / 10000 := by
    refine kick_bound P (F0 ^ 2 + F1 ^ 2) (p0 * F0 + p1 * F1) Q S hP1 hSlow hF2 ?_ ?_
    · have h0 := sq_nonneg (p0 - F0)
      have h1 := sq_nonneg (p1 - F1)
      rw [hP]
      linarith
    · rw [hQ, hP, hq0, hq1]; ring
  -- angular momentum
  have hyL : y0 * p1 - y1 * p0 = 3 := by rw [hy0, hy1]; linarith
  have hyF : y0 * F1 - y1 * F0 = 0 := by
    rw [hF0, hF1]
    field_simp
    ring
  have hzL : z0 * q1 - z1 * q0 = 3 := by
    rw [hz0, hz1, hq0, hq1]
    linear_combination hyL + 1 / 1000 * hyF
  refine ⟨hzL, ?_⟩
  -- radius after the step
  obtain ⟨hR2pos', -⟩ := lagrange_cross z0 z1 q0 q1 hzL
  obtain ⟨r', hr'⟩ : ∃ r', r' = √(z0 ^ 2 + z1 ^ 2) := ⟨_, rfl⟩
  rw [← hr', ← hQ, ← hr, ← hP]
  have hrpos' : 0 < r' := by rw [hr']; exact Real.sqrt_pos.2 hR2pos'
  have hr2' : r' ^ 2 = z0 ^ 2 + z1 ^ 2 := by rw [hr']; exact Real.sq_sqrt hR2pos'.le
  -- change of the kinetic energy
  have e1 : r' ^ 2 - 1 / 4000000 * Q - r ^ 2 + 1 / 4000000 * P
      = 1 / 1000 * (y0 * (p0 + q0) + y1 * (p1 + q1)) := by
    have hx0 : x0 = y0 - 1 / 2000 * p0 := by rw [hy0]; ring
    have hx1 : x1 = y1 - 1 / 2000 * p1 := by rw [hy1]; ring
    rw [hr2', hr2, hQ, hP, hz0, hz1, hx0, hx1]
    ring
  have e2 : Q - P = 1 / 1000 * (F0 * (p0 + q0) + F1 * (p1 + q1)) := by
    rw [hQ, hP, hq0, hq1]; ring
  have e3 : F0 * (p0 + q0) + F1 * (p1 + q1)
      = -(y0 * (p0 + q0) + y1 * (p1 + q1)) / s ^ 3 := by
    have : s * S = s ^ 3 := by rw [← hs2]; ring
    rw [hF0, hF1, this]
    field_simp
    ring
  have hK : 0.5 * (Q - P)
      = -(r' ^ 2 - 1 / 4000000 * Q - r ^ 2 + 1 / 4000000 * P) / (2 * s ^ 3) := by
    rw [e1, e2, e3]
    field_simp
    norm_num
    ring
  -- distance between the radii
  have hD : (r - s) ^ 2 ≤ 1 / 4000000 * P := by
    have hm : (r ^ 2 + 1 / 2000 * c) ^ 2 ≤ (r * s) ^ 2 := by
      have : (r * s) ^ 2 - (r ^ 2 + 1 / 2000 * c) ^ 2 = (x0 * y1 - x1 * y0) ^ 2 := by
        rw [mul_pow, hs2, hS, hr2, hc, hy0, hy1]; ring
      have h0 := sq_nonneg (x0 * y1 - x1 * y0)
      linarith
    have hm' : r ^ 2 + 1 / 2000 * c ≤ r * s :=
      (abs_le_of_sq_le_sq' hm (by positivity)).2
    have : (r - s) ^ 2 = r ^ 2 + S - 2 * (r * s) := by rw [← hs2]; ring
    rw [this, hSeq]
    linarith
  have hB := remainder_bound r s r' (1 / 4000000 * P) (1 / 4000000 * Q) hrpos hspos hrpos' hD
  have hN := step_size r s P Q hr87 hs869 hP1 hQ1
  linarith

/-! ### The run of `main` -/

theorem reportedTotals_append_num {α : Type} (l : List (Tok α)) (t : α) (b : List (Tok α)) :
    reportedTotals (l ++ Tok.num t :: b) = reportedTotals l ++ reportedTotals (Tok.num t :: b) := by
  induction l with
  | nil => rfl
  | cons a l ih =>
    cases a with
    | num e =>
      cases l with
      | nil => simp [reportedTotals]
      | cons c l =>
        cases c <;> simp_all [reportedTotals]
    | int i => simpa [reportedTotals] using ih
    | str s => simpa [reportedTotals] using ih
    | endl => simpa [reportedTotals] using ih

/-- A report adds one total to the output: the sum of the kinetic and the
potential energy it has just computed. -/
theorem reportedTotals_report {α : Type} [OfScientific α] [Add α] [Mul α] [Neg α] [Div α]
    (sqrt : α → α) (w : World α) :
    reportedTotals (report sqrt w).cout
      = reportedTotals w.cout ++ [(report sqrt w).a.T + (report sqrt w).a.V] := by
  have h : (report sqrt w).cout = w.cout ++ Tok.num w.t ::
      [.str "\t", .num ((report sqrt w).a.x 0), .str "\t", .num ((report sqrt w).a.x 1),
       .str "\t", .num ((report sqrt w).a.v 0), .str "\t", .num ((report sqrt w).a.v 1),
       .str "\t", .num (report sqrt w).a.T, .str "\t", .num (report sqrt w).a.V,
       .str "\t", .num ((report sqrt w).a.T + (report sqrt w).a.V), .endl,
       .str "#", .str "\tx[", .int 0, .str "]\t", .str "\tx[", .int 1, .str "]\t",
       .str "\tv[", .int 0, .str "]\t", .str "\tv[", .int 1, .str "]\t",
       .str "\tT\t\tV\t\tT+V", .endl] := by
    simp [report, showState, forD_eq]
  rw [h, reportedTotals_append_num]
  rfl

/-- A round is the reporting branch, if the test selects it, followed by a
round without report. -/
theorem iteration_eq_after_report {α : Type} [OfScientific α] [Add α] [Mul α] [Neg α] [Div α]
    (sqrt : α → α) (dt : α) (c : control) (i : Int) (w : World α) :
    iteration sqrt dt c i w = iteration sqrt dt ⟨0, 0⟩ 0 w ∨
    iteration sqrt dt c i w = iteration sqrt dt ⟨0, 0⟩ 0 (report sqrt w) := by
  by_cases hd : c.printing ≠ 0 ∧ Int.tmod i c.printing = 0
  · right
    simp [iteration, hd]
  · left
    simp [iteration, hd]

/-- The reporting branch keeps the invariant of the run of `main`: the total
it writes is the energy of the particle. -/
theorem orbitInv_report (k : ℝ) (hk : k ≤ 500000) (w : World ℝ) (h : orbitInv k w) :
    orbitInv k (report Real.sqrt w) := by
  obtain ⟨him, hG, hL, hE, hout⟩ := h
  have hph := phase_report Real.sqrt w
  simp only [phase, Prod.mk.injEq] at hph
  obtain ⟨hx, hp, him', hG', -⟩ := hph
  refine ⟨him'.trans him, hG'.trans hG, by rw [hx, hp]; exact hL, by rw [hx, hp]; exact hE, ?_⟩
  intro e he
  rw [reportedTotals_report, List.mem_append, List.mem_singleton] at he
  rcases he with he | he
  · exact hout e he
  · obtain ⟨hR2pos, hLag⟩ := lagrange_cross _ _ _ _ hL
    have hval : e = 0.5 * (w.a.p 0 ^ 2 + w.a.p 1 ^ 2)
        - 1 / Real.sqrt (w.a.x 0 ^ 2 + w.a.x 1 ^ 2) := by
      have h0 : (0.0 : ℝ) + w.a.x 0 * w.a.x 0 + w.a.x 1 * w.a.x 1
          = w.a.x 0 ^ 2 + w.a.x 1 ^ 2 := by norm_num; ring
      rw [he]
      simp only [report, Force_eq, p2v_eq, pv2T_eq, him, hG, h0]
      norm_num
      ring
    have hrpos : 0 < Real.sqrt (w.a.x 0 ^ 2 + w.a.x 1 ^ 2) := Real.sqrt_pos.2 hR2pos
    have hlow := energy_lower (Real.sqrt (w.a.x 0 ^ 2 + w.a.x 1 ^ 2))
      (w.a.p 0 ^ 2 + w.a.p 1 ^ 2) hrpos
      (by rw [Real.sq_sqrt hR2pos.le, hLag]; nlinarith [sq_nonneg (w.a.x 0 * w.a.p 0 + w.a.x 1 * w.a.p 1)])
    rw [hval]
    refine ⟨hlow, ?_⟩
    have : k * (11 / 100000000000) ≤ 1 / 18000 := by linarith
    linarith

/-- A round without report keeps the invariant of the run of `main`, with one
more round counted. -/
theorem orbitInv_step (k : ℝ) (hk : k + 1 ≤ 500000) (w : World ℝ)
    (h : orbitInv k w) :
    orbitInv (k + 1) (iteration Real.sqrt 0.001 ⟨0, 0⟩ 0 w) := by
  obtain ⟨him, hG, hL, hE, hout⟩ := h
  have hE' : 0.5 * (w.a.p 0 ^ 2 + w.a.p 1 ^ 2)
      - 1 / Real.sqrt (w.a.x 0 ^ 2 + w.a.x 1 ^ 2) ≤ -1 / 18 + 11 / 200000 := by
    have : k * (11 / 100000000000) ≤ 11 / 200000 := by linarith
    linarith
  have hh : (1 / 1000 : ℝ) * 0.5 = 1 / 2000 := by norm_num
  have hdt : (0.001 : ℝ) = 1 / 1000 := by norm_num
  have key := kepler_step (w.a.x 0) (w.a.x 1) (w.a.p 0) (w.a.p 1)
    _ _ _ _ _ _ _ _ _ rfl rfl rfl rfl rfl rfl rfl rfl rfl hL hE'
  obtain ⟨kL, kE⟩ := key
  have h0 : ∀ a b : ℝ, (0.0 : ℝ) + a * a + b * b = a ^ 2 + b ^ 2 := by
    intro a b; norm_num; ring
  have hcout : (iteration Real.sqrt 0.001 ⟨0, 0⟩ 0 w).cout = w.cout := by
    simp [iteration]
  have hx : ∀ j, (iteration Real.sqrt 0.001 ⟨0, 0⟩ 0 w).a.x j
      = (w.a.x j + 1 / 2000 * w.a.p j) + 1 / 2000 * (w.a.p j + 1 / 1000 *
        (-(w.a.x j + 1 / 2000 * w.a.p j) /
          (Real.sqrt ((w.a.x 0 + 1 / 2000 * w.a.p 0) ^ 2 + (w.a.x 1 + 1 / 2000 * w.a.p 1) ^ 2) *
            ((w.a.x 0 + 1 / 2000 * w.a.p 0) ^ 2 + (w.a.x 1 + 1 / 2000 * w.a.p 1) ^ 2)))) := by
    intro j
    simp only [iteration, PositionStep_eq, MomentumStep_eq, Force_eq, him, hG, h0, hh, hdt,
      ne_eq, not_true_eq_false, false_and, if_false, mul_one, neg_mul, one_mul]
  have hp : ∀ j, (iteration Real.sqrt 0.001 ⟨0, 0⟩ 0 w).a.p j
      = w.a.p j + 1 / 1000 *
        (-(w.a.x j + 1 / 2000 * w.a.p j) /
          (Real.sqrt ((w.a.x 0 + 1 / 2000 * w.a.p 0) ^ 2 + (w.a.x 1 + 1 / 2000 * w.a.p 1) ^ 2) *
            ((w.a.x 0 + 1 / 2000 * w.a.p 0) ^ 2 + (w.a.x 1 + 1 / 2000 * w.a.p 1) ^ 2))) := by
    intro j
    simp only [iteration, PositionStep_eq, MomentumStep_eq, Force_eq, him, hG, h0, hh, hdt,
      ne_eq, not_true_eq_false, false_and, if_false, mul_one, neg_mul, one_mul]
  refine ⟨?_, ?_, ?_, ?_, ?_⟩
  · simp [iteration, PositionStep_eq, MomentumStep_eq, Force_eq, him]
  · simp [iteration, PositionStep_eq, MomentumStep_eq, Force_eq, hG]
  · rw [hx 0, hx 1, hp 0, hp 1]
    exact kL
  · rw [hx 0, hx 1, hp 0, hp 1]
    have : (k + 1) * (11 / 100000000000 : ℝ) = k * (11 / 100000000000) + 11 / 100000000000 := by
      ring
    rw [this]
    linarith
  · rw [hcout]
    exact hout

theorem orbitInv_loop_go (c : control) (n : Nat) (i : Int) (w : World ℝ)
    (h : orbitInv (i : ℝ) w) (hin : i + n ≤ 500000) :
    orbitInv ((i + n : Int) : ℝ) (loop.go (iteration Real.sqrt 0.001 c) n i w) := by
  induction n generalizing i w with
  | zero => simpa [loop.go] using h
  | succ n ih =>
    rw [loop.go]
    have hi : ((i : ℝ)) + 1 ≤ 500000 := by
      have : i + 1 ≤ 500000 := by push_cast at hin; omega
      exact_mod_cast this
    have hstep : orbitInv ((i + 1 : Int) : ℝ) (iteration Real.sqrt 0.001 c i w) := by
      push_cast
      rcases iteration_eq_after_report Real.sqrt 0.001 c i w with e | e
      · rw [e]
        exact orbitInv_step _ hi w h
      · rw [e]
        exact orbitInv_step _ hi _ (orbitInv_report _ (by linarith) w h)
    have := ih (i + 1) _ hstep (by push_cast at hin ⊢; omega)
    have e : i + 1 + (n : Int) = i + ((n + 1 : Nat) : Int) := by push_cast; ring
    rwa [e] at this

/-- A total that has been reported stays in the output. -/
theorem reportedTotals_loop_go {α : Type} [OfScientific α] [Add α] [Mul α] [Neg α] [Div α]
    (sqrt : α → α) (dt : α) (c : control) (n : Nat) (i : Int) (w : World α) (e : α)
    (he : e ∈ reportedTotals w.cout) :
    e ∈ reportedTotals (loop.go (iteration sqrt dt c) n i w).cout := by
  induction n generalizing i w with
  | zero => exact he
  | succ n ih =>
    rw [loop.go]
    apply ih
    have hc : ∀ u : World α, (iteration sqrt dt ⟨0, 0⟩ 0 u).cout = u.cout := by
      intro u
      simp [iteration]
    rcases iteration_eq_after_report sqrt dt c i w with h | h
    · rw [h, hc]
      exact he
    · rw [h, hc, reportedTotals_report]
      exact List.mem_append_left _ he

/-- The state in which `main` calls `LeapfrogDynamics`, over the reals. -/
theorem main_eq (a0 : particle ℝ) :
    ∃ a : particle ℝ, a.x 0 = 9 ∧ a.x 1 = 0 ∧ a.p 0 = 0 ∧ a.p 1 = 1 / 3 ∧ a.im = 1 ∧ a.GMm = 1 ∧
      main Real.sqrt a0
        = loop.go (iteration Real.sqrt 0.001 { verbose := 1, printing := 5 }) 500000 0
            { a := a, t := 0.0, cout := [], log := [] } := by
  have hN : Int.toNat 500000 = 500000 := rfl
  refine ⟨v2p
    { x := Function.update (Function.update a0.x 0 9.0) 1 0.0, p := a0.p, F := a0.F, im := 1.0,
      GMm := 1.0, v := Function.update (Function.update a0.v 0 0.0) 1 (1.0 / 3.0), T := a0.T,
      V := a0.V, r := a0.r }, ?_, ?_, ?_, ?_, ?_, ?_, ?_⟩
  rotate_right
  · simp only [main, LeapfrogDynamics, loop, hN]
  · simp [v2p_eq]
    norm_num
  · simp [v2p_eq]
    norm_num
  · simp [v2p_eq]
    norm_num
  · simp [v2p_eq]
    norm_num
  · simp [v2p_eq]
    norm_num
  · simp [v2p_eq]
    norm_num

theorem sqrt_eighty_one : Real.sqrt ((9 : ℝ) ^ 2 + 0 ^ 2) = 9 := by
  rw [show ((9 : ℝ) ^ 2 + 0 ^ 2) = 9 ^ 2 by norm_num]
  exact Real.sqrt_sq (by norm_num)

/-- The first total that `main` reports is `-1/18`. -/
theorem main_first_total (a0 : particle ℝ) :
    (-1 / 18 : ℝ) ∈ reportedTotals (main Real.sqrt a0).cout := by
  obtain ⟨a, hx0, hx1, hp0, hp1, him, hG, hmain⟩ := main_eq a0
  rw [hmain, show (500000 : Nat) = 499999 + 1 from rfl, loop.go]
  apply reportedTotals_loop_go
  have e : iteration Real.sqrt 0.001 { verbose := 1, printing := 5 } 0
      { a := a, t := 0.0, cout := [], log := [] }
      = iteration Real.sqrt 0.001 ⟨0, 0⟩ 0
        (report Real.sqrt { a := a, t := 0.0, cout := [], log := [] }) := by
    simp [iteration]
  have hc : ∀ u : World ℝ, (iteration Real.sqrt 0.001 ⟨0, 0⟩ 0 u).cout = u.cout := by
    intro u
    simp [iteration]
  rw [e, hc, reportedTotals_report, List.mem_append, List.mem_singleton]
  right
  have h0 : (0.0 : ℝ) + 9 * 9 + 0 * 0 = 9 ^ 2 + 0 ^ 2 := by norm_num
  simp only [report, Force_eq, p2v_eq, pv2T_eq, hx0, hx1, hp0, hp1, him, hG, h0, sqrt_eighty_one]
  norm_num

/-- C10: over the reals, every total energy `T+V` that `main` reports (position
`(9, 0)`, velocity `(0, 1/3)`, unit inverse mass and gravitational parameter,
`dt = 0.001`, `500000` steps, a report every fifth step) is within the relative
tolerance `1e-3` of the initial value `-1/18`. -/
theorem main_energy_bounded (a0 : particle ℝ) :
    ∀ e ∈ reportedTotals (main Real.sqrt a0).cout,
      |e - (-1 / 18)| ≤ 1e-3 * |(-1 / 18 : ℝ)| := by
  obtain ⟨a, hx0, hx1, hp0, hp1, him, hG, hmain⟩ := main_eq a0
  have hinit : orbitInv ((0 : Int) : ℝ) { a := a, t := 0.0, cout := [], log := [] } := by
    refine ⟨him, hG, ?_, ?_, ?_⟩
    · show a.x 0 * a.p 1 - a.x 1 * a.p 0 = 3
      rw [hx0, hx1, hp0, hp1]
      norm_num
    · show 0.5 * (a.p 0 ^ 2 + a.p 1 ^ 2) - 1 / Real.sqrt (a.x 0 ^ 2 + a.x 1 ^ 2) ≤ _
      rw [hx0, hx1, hp0, hp1, sqrt_eighty_one]
      norm_num
    · intro e he
      simp [reportedTotals] at he
  have hfin := orbitInv_loop_go { verbose := 1, printing := 5 } 500000 0 _ hinit (by norm_num)
  rw [← hmain] at hfin
  intro e he
  obtain ⟨h1, h2⟩ := hfin.2.2.2.2 e he
  rw [abs_le]
  have h3 : |(-1 / 18 : ℝ)| = 1 / 18 := by
    rw [abs_of_neg (by norm_num)]
    norm_num
  rw [h3]
  constructor
  · norm_num
    linarith
  · norm_num
    linarith

/-- Witness of C10: the first total that `main` reports, `-1/18`. -/
theorem main_energy_bounded_witness :
    (-1 / 18 : ℝ) ∈ reportedTotals (main Real.sqrt
      { x := 0, p := 0, F := 0, im := 0, GMm := 0, v := 0, T := 0, V := 0, r := 0 }).cout ∧
    |(-1 / 18 : ℝ) - (-1 / 18)| ≤ 1e-3 * |(-1 / 18 : ℝ)| :=
  ⟨main_first_total _,
   main_energy_bounded
      { x := 0, p := 0, F := 0, im := 0, GMm := 0, v := 0, T := 0, V := 0, r := 0 }
      (-1 / 18) (main_first_total _)⟩

/-! ## What a run executes -/

section Executed

variable {α : Type}

theorem snapshots_append (l l' : List (Event α)) :
    snapshots (l ++ l') = snapshots l + snapshots l' := by
  induction l with
  | nil => simp [snapshots]
  | cons e l ih =>
    cases e <;> simp [snapshots, ih]
    omega

theorem lineEnds_append (l l' : List (Tok α)) :
    lineEnds (l ++ l') = lineEnds l + lineEnds l' := by
  induction l with
  | nil => simp [lineEnds]
  | cons e l ih =>
    cases e <;> simp [lineEnds, ih]
    omega

/-- The ghost record of one round: the reporting branch, if the test selects
it, and the stepping part. -/
theorem iteration_log [OfScientific α] [Add α] [Mul α] [Neg α] [Div α] (sqrt : α → α)
    (dt : α) (c : control) (i : Int) (w : World α) :
    (iteration sqrt dt c i w).log
      = w.log ++ ((if c.printing ≠ 0 ∧ Int.tmod i c.printing = 0 then reportEvents else [])
          ++ stepEvents dt) := by
  by_cases hd : c.printing ≠ 0 ∧ Int.tmod i c.printing = 0
  · simp [iteration, hd, report, reportEvents, stepEvents]
  · simp [iteration, hd, stepEvents]

/-- The ghost record of a run of `n` rounds that starts at index `i`. -/
theorem loop_go_log [OfScientific α] [Add α] [Mul α] [Neg α] [Div α] (sqrt : α → α)
    (dt : α) (c : control) (n : Nat) (i : Int) (w : World α) :
    (loop.go (iteration sqrt dt c) n i w).log
      = w.log ++ (List.range n).flatMap (fun j =>
          (if c.printing ≠ 0 ∧ Int.tmod (i + (j : Int)) c.printing = 0 then reportEvents else [])
            ++ stepEvents dt) := by
  induction n with
  | zero => simp [loop.go]
  | succ n ih =>
    rw [loop_go_succ, iteration_log, ih, List.range_succ, List.flatMap_append]
    simp

/-- On loop indices and a positive period the test of the reporting branch is
divisibility. -/
theorem report_test (k j : Nat) (hk : 0 < k) :
    (((k : Int) ≠ 0 ∧ Int.tmod (0 + (j : Int)) (k : Int) = 0)) ↔ j % k = 0 := by
  rw [zero_add, Int.tmod_eq_emod (Int.natCast_nonneg j) (Int.natCast_nonneg k)]
  constructor
  · rintro ⟨-, h⟩
    exact_mod_cast h
  · intro h
    refine ⟨by omega, ?_⟩
    exact_mod_cast h

/-- The number of multiples of `k` below `n`. -/
theorem snapshots_range (dt : α) [OfScientific α] [Mul α] (k n : Nat) (hk : 0 < k) :
    snapshots ((List.range n).flatMap (fun j =>
      (if j % k = 0 then (reportEvents : List (Event α)) else []) ++ stepEvents dt))
      = (n + k - 1) / k := by
  induction n with
  | zero =>
    have e : (k - 1) / k = 0 := Nat.div_eq_of_lt (by omega)
    simp [snapshots, e]
  | succ n ih =>
    rw [List.range_succ, List.flatMap_append, snapshots_append, ih]
    have e : n + 1 + k - 1 = (n + k - 1) + 1 := by omega
    rw [e, Nat.succ_div]
    have e' : n + k - 1 + 1 = n + k := by omega
    rw [e']
    congr 1
    by_cases h : n % k = 0
    · have hd : k ∣ n + k := (Nat.dvd_add_left (dvd_refl k)).2 (Nat.dvd_of_mod_eq_zero h)
      simp [h, hd, snapshots, reportEvents, stepEvents, snapshots_append]
    · have hd : ¬ k ∣ n + k := fun hd =>
        h (Nat.mod_eq_zero_of_dvd ((Nat.dvd_add_left (dvd_refl k)).1 hd))
      simp [h, hd, snapshots, stepEvents]

/-- With period `0` a round does not write. -/
theorem loop_go_cout_silent [OfScientific α] [Add α] [Mul α] [Neg α] [Div α] (sqrt : α → α)
    (dt : α) (verbose : Int) (n : Nat) (i : Int) (w : World α) :
    (loop.go (iteration sqrt dt { verbose := verbose, printing := 0 }) n i w).cout = w.cout := by
  induction n generalizing i w with
  | zero => rfl
  | succ n ih =>
    rw [loop.go, ih]
    simp [iteration]

end Executed

/-! ## Frames -/

/-- C13: `Force` writes the force, the radius and the potential energy and
nothing else: position, momentum, inverse mass, gravitational parameter,
velocity and kinetic energy are after the call what they were before; and what
it writes is the same for two particles with the same position and the same
gravitational parameter. -/
theorem Force_frame {α : Type} [OfScientific α] [Add α] [Mul α] [Neg α] [Div α]
    (sqrt : α → α) (a b : particle α) :
    ((Force sqrt a).x = a.x ∧ (Force sqrt a).p = a.p ∧ (Force sqrt a).im = a.im ∧
      (Force sqrt a).GMm = a.GMm ∧ (Force sqrt a).v = a.v ∧ (Force sqrt a).T = a.T) ∧
    (a.x = b.x → a.GMm = b.GMm →
      (Force sqrt a).F = (Force sqrt b).F ∧ (Force sqrt a).r = (Force sqrt b).r ∧
      (Force sqrt a).V = (Force sqrt b).V) := by
  refine ⟨?_, fun hx hG => ?_⟩
  · rw [Force_eq]
    exact ⟨rfl, rfl, rfl, rfl, rfl, rfl⟩
  · rw [Force_eq, Force_eq]
    simp [hx, hG]

/-- Witness of C13: two particles at `(3, 4)` with `GMm = 1` that differ in
momentum, inverse mass and velocity. -/
theorem Force_frame_witness :
    (![3, 4] : Fin D → ℚ) = ![3, 4] ∧ (1 : ℚ) = 1 ∧
    (Force Rat.sqrt
      { x := ![3, 4], p := ![1, 2], F := 0, im := 1, GMm := 1, v := 0, T := 0, V := 0, r := 0 }).F
      = (Force Rat.sqrt
      { x := ![3, 4], p := ![5, 6], F := 0, im := 2, GMm := 1, v := ![7, 8], T := 0, V := 0,
        r := 0 }).F :=
  ⟨rfl, rfl,
   ((Force_frame Rat.sqrt
      { x := ![3, 4], p := ![1, 2], F := 0, im := 1, GMm := 1, v := 0, T := 0, V := 0, r := 0 }
      { x := ![3, 4], p := ![5, 6], F := 0, im := 2, GMm := 1, v := ![7, 8], T := 0, V := 0,
        r := 0 }).2 rfl rfl).1⟩

/-! ## Angular momentum -/

/-- Over the reals one round keeps the angular momentum: the position moves
along the momentum and the momentum along a force parallel to the position. -/
theorem angularMomentum_iteration (sqrt : ℝ → ℝ) (dt : ℝ) (c : control) (i : Int)
    (w : World ℝ) :
    angularMomentum (iteration sqrt dt c i w).a = angularMomentum w.a := by
  have h := phase_iteration_congr sqrt dt c ⟨0, 0⟩ i 0 w w rfl
  simp only [phase, Prod.mk.injEq] at h
  simp only [angularMomentum, h.1, h.2.1]
  simp only [iteration, PositionStep_eq, MomentumStep_eq, Force_eq, ne_eq,
    not_true_eq_false, false_and, if_false]
  ring

theorem angularMomentum_loop_go (sqrt : ℝ → ℝ) (dt : ℝ) (c : control) (n : Nat) (i : Int)
    (w : World ℝ) :
    angularMomentum (loop.go (iteration sqrt dt c) n i w).a = angularMomentum w.a := by
  induction n generalizing i w with
  | zero => rfl
  | succ n ih => rw [loop.go, ih, angularMomentum_iteration]

/-- C16: over the reals, for every particle, step `dt`, step count and control
setting, the angular momentum `x[0]*p[1] - x[1]*p[0]` after `LeapfrogDynamics`
is the one before.  This holds also when a force is evaluated at the origin,
because there the position that the force is crossed with is zero. -/
theorem LeapfrogDynamics_angularMomentum (a : particle ℝ) (dt t : ℝ) (N : Int)
    (c : control) :
    (LeapfrogDynamics Real.sqrt a dt t N c).a.x 0 * (LeapfrogDynamics Real.sqrt a dt t N c).a.p 1
      - (LeapfrogDynamics Real.sqrt a dt t N c).a.x 1
        * (LeapfrogDynamics Real.sqrt a dt t N c).a.p 0
      = a.x 0 * a.p 1 - a.x 1 * a.p 0 :=
  angularMomentum_loop_go Real.sqrt dt c N.toNat 0 { a := a, t := t, cout := [], log := [] }

/-! ## Reporting and the trajectory -/

section Trajectory

variable {α : Type} [OfScientific α] [Add α] [Mul α] [Neg α] [Div α]

/-- The force, potential energy and radius that a round leaves in the particle
depend on position, momentum, inverse mass and gravitational parameter at its
start and on nothing else. -/
theorem stored_iteration_congr (sqrt : α → α) (dt : α) (c c' : control) (i i' : Int)
    (w w' : World α) (h : phase w = phase w') :
    (iteration sqrt dt c i w).a.F = (iteration sqrt dt c' i' w').a.F ∧
    (iteration sqrt dt c i w).a.V = (iteration sqrt dt c' i' w').a.V ∧
    (iteration sqrt dt c i w).a.r = (iteration sqrt dt c' i' w').a.r := by
  have key : ∀ (u u' : World α), phase u = phase u' →
      (iteration sqrt dt ⟨0, 0⟩ 0 u).a.F = (iteration sqrt dt ⟨0, 0⟩ 0 u').a.F ∧
      (iteration sqrt dt ⟨0, 0⟩ 0 u).a.V = (iteration sqrt dt ⟨0, 0⟩ 0 u').a.V ∧
      (iteration sqrt dt ⟨0, 0⟩ 0 u).a.r = (iteration sqrt dt ⟨0, 0⟩ 0 u').a.r := by
    intro u u' hu
    simp only [phase, Prod.mk.injEq] at hu
    obtain ⟨h1, h2, h3, h4, -⟩ := hu
    simp [iteration, Force_eq, PositionStep_eq, MomentumStep_eq, h1, h2, h3, h4]
  have hw : ∃ u, iteration sqrt dt c i w = iteration sqrt dt ⟨0, 0⟩ 0 u ∧ phase u = phase w := by
    rcases iteration_eq_after_report sqrt dt c i w with e | e
    · exact ⟨w, e, rfl⟩
    · exact ⟨report sqrt w, e, phase_report sqrt w⟩
  have hw' : ∃ u, iteration sqrt dt c' i' w' = iteration sqrt dt ⟨0, 0⟩ 0 u ∧
      phase u = phase w' := by
    rcases iteration_eq_after_report sqrt dt c' i' w' with e | e
    · exact ⟨w', e, rfl⟩
    · exact ⟨report sqrt w', e, phase_report sqrt w'⟩
  obtain ⟨u, e, hu⟩ := hw
  obtain ⟨u', e', hu'⟩ := hw'
  rw [e, e']
  exact key u u' (hu.trans (h.trans hu'.symm))

theorem stored_loop_go_congr (sqrt : α → α) (dt : α) (c c' : control) (n : Nat) (i i' : Int)
    (w w' : World α) (h : phase w = phase w')
    (hs : w.a.F = w'.a.F ∧ w.a.V = w'.a.V ∧ w.a.r = w'.a.r) :
    (loop.go (iteration sqrt dt c) n i w).a.F = (loop.go (iteration sqrt dt c') n i' w').a.F ∧
    (loop.go (iteration sqrt dt c) n i w).a.V = (loop.go (iteration sqrt dt c') n i' w').a.V ∧
    (loop.go (iteration sqrt dt c) n i w).a.r = (loop.go (iteration sqrt dt c') n i' w').a.r := by
  cases n with
  | zero => exact hs
  | succ n =>
    rw [loop_go_succ, loop_go_succ]
    exact stored_iteration_congr sqrt dt c c' _ _ _ _
      (phase_loop_go_congr sqrt dt c c' n i i' w w' h)

end Trajectory

/-- C17: for every particle, step, start time and step count, two runs of
`LeapfrogDynamics` that differ only in their control settings end with the
same position, momentum and clock, and also with the same inverse mass,
gravitational parameter, force, potential energy and radius: only the stored
velocity and kinetic energy and the output can differ. -/
theorem LeapfrogDynamics_reporting_independent {α : Type} [OfScientific α] [Add α] [Mul α]
    [Neg α] [Div α] (sqrt : α → α) (a : particle α) (dt t : α) (N : Int) (c c' : control) :
    (LeapfrogDynamics sqrt a dt t N c).a.x = (LeapfrogDynamics sqrt a dt t N c').a.x ∧
    (LeapfrogDynamics sqrt a dt t N c).a.p = (LeapfrogDynamics sqrt a dt t N c').a.p ∧
    (LeapfrogDynamics sqrt a dt t N c).t = (LeapfrogDynamics sqrt a dt t N c').t ∧
    (LeapfrogDynamics sqrt a dt t N c).a.im = (LeapfrogDynamics sqrt a dt t N c').a.im ∧
    (LeapfrogDynamics sqrt a dt t N c).a.GMm = (LeapfrogDynamics sqrt a dt t N c').a.GMm ∧
    (LeapfrogDynamics sqrt a dt t N c).a.F = (LeapfrogDynamics sqrt a dt t N c').a.F ∧
    (LeapfrogDynamics sqrt a dt t N c).a.V = (LeapfrogDynamics sqrt a dt t N c').a.V ∧
    (LeapfrogDynamics sqrt a dt t N c).a.r = (LeapfrogDynamics sqrt a dt t N c').a.r := by
  have h := phase_loop_go_congr sqrt dt c c' N.toNat 0 0
    { a := a, t := t, cout := [], log := [] } { a := a, t := t, cout := [], log := [] } rfl
  have hs := stored_loop_go_congr sqrt dt c c' N.toNat 0 0
    { a := a, t := t, cout := [], log := [] } { a := a, t := t, cout := [], log := [] } rfl
    ⟨rfl, rfl, rfl⟩
  simp only [phase, Prod.mk.injEq] at h
  exact ⟨h.1, h.2.1, h.2.2.2.2, h.2.2.1, h.2.2.2.1, hs.1, hs.2.1, hs.2.2⟩

/-! ## Runs without reporting -/

section Silent

variable {α : Type} [OfScientific α] [Add α] [Mul α] [Neg α] [Div α]

theorem loop_go_add {σ : Type} (body : Int → σ → σ) (n m : Nat) (i : Int) (w : σ) :
    loop.go body (n + m) i w = loop.go body m (i + n) (loop.go body n i w) := by
  induction n generalizing i w with
  | zero => simp [loop.go]
  | succ n ih =>
    rw [show n + 1 + m = (n + m) + 1 by omega, loop.go, loop.go, ih]
    congr 1
    push_cast
    ring

/-- A round without reporting is the stepping part: it writes nothing, leaves
velocity and kinetic energy alone, and what it does to particle and clock does
not depend on the loop index. -/
theorem iteration_silent (sqrt : α → α) (dt : α) (verbose : Int) (i : Int) (w : World α) :
    (iteration sqrt dt { verbose := verbose, printing := 0 } i w).a
      = PositionStep (MomentumStep (Force sqrt (PositionStep w.a (dt * 0.5))) dt) (dt * 0.5) ∧
    (iteration sqrt dt { verbose := verbose, printing := 0 } i w).t
      = w.t + dt * 0.5 + dt * 0.5 ∧
    (iteration sqrt dt { verbose := verbose, printing := 0 } i w).cout = w.cout := by
  simp [iteration]

/-- Particle and clock after a run without reporting depend on particle and
clock at its start only. -/
theorem loop_go_silent_congr (sqrt : α → α) (dt : α) (verbose verbose' : Int) (n : Nat)
    (i i' : Int) (w w' : World α) (ha : w.a = w'.a) (ht : w.t = w'.t) :
    (loop.go (iteration sqrt dt { verbose := verbose, printing := 0 }) n i w).a
      = (loop.go (iteration sqrt dt { verbose := verbose', printing := 0 }) n i' w').a ∧
    (loop.go (iteration sqrt dt { verbose := verbose, printing := 0 }) n i w).t
      = (loop.go (iteration sqrt dt { verbose := verbose', printing := 0 }) n i' w').t := by
  induction n generalizing i i' w w' with
  | zero => exact ⟨ha, ht⟩
  | succ n ih =>
    rw [loop.go, loop.go]
    apply ih
    · rw [(iteration_silent sqrt dt verbose i w).1, (iteration_silent sqrt dt verbose' i' w').1, ha]
    · rw [(iteration_silent sqrt dt verbose i w).2.1,
        (iteration_silent sqrt dt verbose' i' w').2.1, ht]

/-- A run without reporting leaves the stored velocity and kinetic energy as
they are. -/
theorem loop_go_silent_frame (sqrt : α → α) (dt : α) (verbose : Int) (n : Nat) (i : Int)
    (w : World α) :
    (loop.go (iteration sqrt dt { verbose := verbose, printing := 0 }) n i w).a.v = w.a.v ∧
    (loop.go (iteration sqrt dt { verbose := verbose, printing := 0 }) n i w).a.T = w.a.T := by
  induction n generalizing i w with
  | zero => exact ⟨rfl, rfl⟩
  | succ n ih =>
    rw [loop.go]
    obtain ⟨h1, h2⟩ := ih (i + 1) (iteration sqrt dt { verbose := verbose, printing := 0 } i w)
    rw [h1, h2, (iteration_silent sqrt dt verbose i w).1]
    simp [Force_eq, PositionStep_eq, MomentumStep_eq]

end Silent

/-- C18: with reporting disabled, running `LeapfrogDynamics` for `N` steps and
then for `M` steps from the particle and clock it leaves gives the same
particle and the same clock as one run of `N + M` steps; and a run of `N` steps
gives what `N` runs of one step, each from the particle and clock of the one
before, give. -/
theorem LeapfrogDynamics_composition {α : Type} [OfScientific α] [Add α] [Mul α] [Neg α]
    [Div α] (sqrt : α → α) (a : particle α) (dt t : α) (N M : Nat) (verbose : Int) :
    ((LeapfrogDynamics sqrt
        (LeapfrogDynamics sqrt a dt t N { verbose := verbose, printing := 0 }).a dt
        (LeapfrogDynamics sqrt a dt t N { verbose := verbose, printing := 0 }).t M
        { verbose := verbose, printing := 0 }).a
      = (LeapfrogDynamics sqrt a dt t ((N + M : Nat) : Int)
          { verbose := verbose, printing := 0 }).a ∧
     (LeapfrogDynamics sqrt
        (LeapfrogDynamics sqrt a dt t N { verbose := verbose, printing := 0 }).a dt
        (LeapfrogDynamics sqrt a dt t N { verbose := verbose, printing := 0 }).t M
        { verbose := verbose, printing := 0 }).t
      = (LeapfrogDynamics sqrt a dt t ((N + M : Nat) : Int)
          { verbose := verbose, printing := 0 }).t) ∧
    ((LeapfrogDynamics sqrt a dt t N { verbose := verbose, printing := 0 }).a,
      (LeapfrogDynamics sqrt a dt t N { verbose := verbose, printing := 0 }).t)
      = (fun s : particle α × α =>
          ((LeapfrogDynamics sqrt s.1 dt s.2 1 { verbose := verbose, printing := 0 }).a,
           (LeapfrogDynamics sqrt s.1 dt s.2 1 { verbose := verbose, printing := 0 }).t))^[N]
          (a, t) := by
  have hcomp : ∀ (n m : Nat) (b : particle α) (s : α),
      (LeapfrogDynamics sqrt
        (LeapfrogDynamics sqrt b dt s n { verbose := verbose, printing := 0 }).a dt
        (LeapfrogDynamics sqrt b dt s n { verbose := verbose, printing := 0 }).t m
        { verbose := verbose, printing := 0 }).a
      = (LeapfrogDynamics sqrt b dt s ((n + m : Nat) : Int)
          { verbose := verbose, printing := 0 }).a ∧
      (LeapfrogDynamics sqrt
        (LeapfrogDynamics sqrt b dt s n { verbose := verbose, printing := 0 }).a dt
        (LeapfrogDynamics sqrt b dt s n { verbose := verbose, printing := 0 }).t m
        { verbose := verbose, printing := 0 }).t
      = (LeapfrogDynamics sqrt b dt s ((n + m : Nat) : Int)
          { verbose := verbose, printing := 0 }).t := by
    intro n m b s
    simp only [LeapfrogDynamics, loop, Int.toNat_ofNat]
    rw [loop_go_add]
    exact loop_go_silent_congr sqrt dt verbose verbose m 0 (0 + n) _ _ rfl rfl
  refine ⟨hcomp N M a t, ?_⟩
  induction N with
  | zero => rfl
  | succ n ih =>
    rw [Function.iterate_succ_apply', ← ih]
    obtain ⟨h1, h2⟩ := hcomp n 1 a t
    exact Prod.ext h1.symm h2.symm

/-- One step without reporting from position `(1, 0)` at rest, with inverse
mass `1`, gravitational parameter `-1` and `dt = 1`, ends with momentum `1` in
the first component. -/
theorem repelled_momentum :
    (LeapfrogDynamics Real.sqrt
      { x := ![1, 0], p := ![0, 0], F := 0, im := 1, GMm := -1, v := ![0, 0], T := 0, V := 0,
        r := 0 }
      1 0 1 { verbose := 1, printing := 0 }).a.p 0 = 1 := by
  have hw : ∀ a : particle ℝ,
      LeapfrogDynamics Real.sqrt a 1 0 1 { verbose := 1, printing := 0 }
        = iteration Real.sqrt 1 { verbose := 1, printing := 0 } 0
            { a := a, t := 0, cout := [], log := [] } := fun _ => rfl
  have h0 : (0.0 : ℝ) = 0 := by norm_num
  rw [hw]
  simp only [iteration, PositionStep_eq, MomentumStep_eq, Force_eq]
  simp [h0]

/-- C19: `LeapfrogDynamics` leaves the inverse mass and the gravitational
parameter of the particle as they are, for all inputs; and with reporting
disabled it also leaves the stored velocity and the stored kinetic energy as
they are. -/
theorem LeapfrogDynamics_frame {α : Type} [OfScientific α] [Add α] [Mul α] [Neg α] [Div α]
    (sqrt : α → α) (a : particle α) (dt t : α) (N : Int) (c : control) :
    (LeapfrogDynamics sqrt a dt t N c).a.im = a.im ∧
    (LeapfrogDynamics sqrt a dt t N c).a.GMm = a.GMm ∧
    (c.printing = 0 →
      (LeapfrogDynamics sqrt a dt t N c).a.v = a.v ∧
      (LeapfrogDynamics sqrt a dt t N c).a.T = a.T) := by
  obtain ⟨h1, h2, -⟩ := loop_go_frame sqrt dt c N.toNat 0 { a := a, t := t, cout := [], log := [] }
  refine ⟨h1, h2, fun hc => ?_⟩
  obtain ⟨verbose, printing⟩ := c
  simp only at hc
  subst hc
  exact loop_go_silent_frame sqrt dt verbose N.toNat 0 { a := a, t := t, cout := [], log := [] }

/-- Witness of C19: after one step without reporting from position `(1, 0)` at
rest, with gravitational parameter `-1`, the stored velocity is still `0` and
no longer the momentum times the inverse mass. -/
theorem LeapfrogDynamics_frame_witness :
    (0 : Int) = 0 ∧
    (LeapfrogDynamics Real.sqrt
      { x := ![1, 0], p := ![0, 0], F := 0, im := 1, GMm := -1, v := ![0, 0], T := 0, V := 0,
        r := 0 }
      1 0 1 { verbose := 1, printing := 0 }).a.v = ![0, 0] ∧
    (LeapfrogDynamics Real.sqrt
      { x := ![1, 0], p := ![0, 0], F := 0, im := 1, GMm := -1, v := ![0, 0], T := 0, V := 0,
        r := 0 }
      1 0 1 { verbose := 1, printing := 0 }).a.v 0
      ≠ (LeapfrogDynamics Real.sqrt
      { x := ![1, 0], p := ![0, 0], F := 0, im := 1, GMm := -1, v := ![0, 0], T := 0, V := 0,
        r := 0 }
      1 0 1 { verbose := 1, printing := 0 }).a.p 0
      * (LeapfrogDynamics Real.sqrt
      { x := ![1, 0], p := ![0, 0], F := 0, im := 1, GMm := -1, v := ![0, 0], T := 0, V := 0,
        r := 0 }
      1 0 1 { verbose := 1, printing := 0 }).a.im := by
  have h := LeapfrogDynamics_frame Real.sqrt
      { x := ![1, 0], p := ![0, 0], F := 0, im := 1, GMm := -1, v := ![0, 0], T := 0, V := 0,
        r := 0 }
      1 0 1 { verbose := 1, printing := 0 }
  refine ⟨rfl, (h.2.2 rfl).1, ?_⟩
  rw [(h.2.2 rfl).1, h.1, repelled_momentum]
  norm_num

/-! ## What a report writes -/

section Output

variable {α : Type} [OfScientific α] [Add α] [Mul α] [Neg α] [Div α]

/-- The particle and the clock that the reporting branch leaves. -/
theorem report_state (sqrt : α → α) (w : World α) :
    (report sqrt w).a = Force sqrt (pv2T (p2v w.a)) ∧ (report sqrt w).t = w.t := by
  simp [report]

/-- The output of the reporting branch: the clock and the record, then the
line that names the columns. -/
theorem report_cout (sqrt : α → α) (w : World α) :
    (report sqrt w).cout = w.cout ++
      ([.num w.t,
        .str "\t", .num ((report sqrt w).a.x 0), .str "\t", .num ((report sqrt w).a.x 1),
        .str "\t", .num ((report sqrt w).a.v 0), .str "\t", .num ((report sqrt w).a.v 1),
        .str "\t", .num (report sqrt w).a.T, .str "\t", .num (report sqrt w).a.V,
        .str "\t", .num ((report sqrt w).a.T + (report sqrt w).a.V), .endl] ++
       [.str "#", .str "\tx[", .int 0, .str "]\t", .str "\tx[", .int 1, .str "]\t",
        .str "\tv[", .int 0, .str "]\t", .str "\tv[", .int 1, .str "]\t",
        .str "\tT\t\tV\t\tT+V", .endl]) := by
  simp [report, showState, forD_eq]

/-- The output of a round is the output of its reporting branch, if the test
selects it. -/
theorem iteration_cout (sqrt : α → α) (dt : α) (c : control) (i : Int) (w : World α) :
    (iteration sqrt dt c i w).cout
      = if c.printing ≠ 0 ∧ Int.tmod i c.printing = 0 then (report sqrt w).cout else w.cout := by
  by_cases hd : c.printing ≠ 0 ∧ Int.tmod i c.printing = 0
  · simp [iteration, hd]
  · simp [iteration, hd]

/-- A run only appends to the output. -/
theorem loop_go_cout_prefix (sqrt : α → α) (dt : α) (c : control) (n : Nat) (i : Int)
    (w : World α) :
    ∃ rest, (loop.go (iteration sqrt dt c) n i w).cout = w.cout ++ rest := by
  induction n generalizing i w with
  | zero => exact ⟨[], by simp [loop.go]⟩
  | succ n ih =>
    rw [loop.go]
    obtain ⟨rest, h⟩ := ih (i + 1) (iteration sqrt dt c i w)
    rw [h, iteration_cout]
    by_cases hd : c.printing ≠ 0 ∧ Int.tmod i c.printing = 0
    · rw [if_pos hd, report_cout, List.append_assoc]
      exact ⟨_, rfl⟩
    · rw [if_neg hd]
      exact ⟨_, rfl⟩

end Output

/-- C15, as the code behaves: a round that reports appends two lines to the
output.  The first is the record: the clock and then, each after a tab, the
fields `x[0..D-1]`, `v[0..D-1]`, `T`, `V` and `T+V` of the particle left by
`p2v`, `pv2T` and `Force`.  The second starts with `#` and names the columns;
it follows the record, in every report.  A round that does not report writes
nothing. -/
theorem report_output_shape {α : Type} [OfScientific α] [Add α] [Mul α] [Neg α] [Div α]
    (sqrt : α → α) (dt : α) (c : control) (i : Int) (w : World α) :
    let b : particle α := Force sqrt (pv2T (p2v w.a))
    (c.printing ≠ 0 ∧ Int.tmod i c.printing = 0 →
      (iteration sqrt dt c i w).cout = w.cout ++
        ([.num w.t, .str "\t", .num (b.x 0), .str "\t", .num (b.x 1),
          .str "\t", .num (b.v 0), .str "\t", .num (b.v 1),
          .str "\t", .num b.T, .str "\t", .num b.V, .str "\t", .num (b.T + b.V), .endl] ++
         [.str "#", .str "\tx[", .int 0, .str "]\t", .str "\tx[", .int 1, .str "]\t",
          .str "\tv[", .int 0, .str "]\t", .str "\tv[", .int 1, .str "]\t",
          .str "\tT\t\tV\t\tT+V", .endl]) ∧
      lineEnds (iteration sqrt dt c i w).cout = lineEnds w.cout + 2) ∧
    (¬ (c.printing ≠ 0 ∧ Int.tmod i c.printing = 0) →
      (iteration sqrt dt c i w).cout = w.cout) := by
  intro b
  refine ⟨fun hd => ?_, fun hd => ?_⟩
  · have h : (iteration sqrt dt c i w).cout = w.cout ++
        ([.num w.t, .str "\t", .num (b.x 0), .str "\t", .num (b.x 1),
          .str "\t", .num (b.v 0), .str "\t", .num (b.v 1),
          .str "\t", .num b.T, .str "\t", .num b.V, .str "\t", .num (b.T + b.V), .endl] ++
         [.str "#", .str "\tx[", .int 0, .str "]\t", .str "\tx[", .int 1, .str "]\t",
          .str "\tv[", .int 0, .str "]\t", .str "\tv[", .int 1, .str "]\t",
          .str "\tT\t\tV\t\tT+V", .endl]) := by
      rw [iteration_cout, if_pos hd, report_cout, (report_state sqrt w).1]
    refine ⟨h, ?_⟩
    rw [h, lineEnds_append]
    rfl
  · rw [iteration_cout, if_neg hd]

/-- Witness of C15 as the code behaves: round `0` with report period `1`, and
with report period `0`. -/
theorem report_output_shape_witness :
    ((1 : Int) ≠ 0 ∧ Int.tmod 0 1 = 0) ∧ ¬ ((0 : Int) ≠ 0 ∧ Int.tmod 0 0 = 0) ∧
    lineEnds (iteration Rat.sqrt (1 / 2) { verbose := 1, printing := 1 } 0
      { a := { x := ![3, 4], p := 0, F := 0, im := 1, GMm := 1, v := 0, T := 0, V := 0, r := 0 },
        t := 0, cout := [], log := [] }).cout = 0 + 2 ∧
    (iteration Rat.sqrt (1 / 2) { verbose := 1, printing := 0 } 0
      { a := { x := ![3, 4], p := 0, F := 0, im := 1, GMm := 1, v := 0, T := 0, V := 0, r := 0 },
        t := 0, cout := [], log := [] }).cout = [] :=
  ⟨by decide, by decide,
   ((report_output_shape Rat.sqrt (1 / 2) { verbose := 1, printing := 1 } 0
      { a := { x := ![3, 4], p := 0, F := 0, im := 1, GMm := 1, v := 0, T := 0, V := 0, r := 0 },
        t := 0, cout := [], log := [] }).1 (by decide)).2,
   (report_output_shape Rat.sqrt (1 / 2) { verbose := 1, printing := 0 } 0
      { a := { x := ![3, 4], p := 0, F := 0, im := 1, GMm := 1, v := 0, T := 0, V := 0, r := 0 },
        t := 0, cout := [], log := [] }).2 (by decide)⟩

/-- The output of the reporting branch is a record of one line followed by the
line that names the columns. -/
theorem report_cout_lines {α : Type} [OfScientific α] [Add α] [Mul α] [Neg α] [Div α]
    (sqrt : α → α) (w : World α) :
    ∃ record : List (Tok α),
      (report sqrt w).cout = w.cout ++ (record ++
        [.str "#", .str "\tx[", .int 0, .str "]\t", .str "\tx[", .int 1, .str "]\t",
         .str "\tv[", .int 0, .str "]\t", .str "\tv[", .int 1, .str "]\t",
         .str "\tT\t\tV\t\tT+V", .endl]) ∧
      lineEnds record = 1 :=
  ⟨_, report_cout sqrt w, rfl⟩

/-- C15 fails on the code: two rounds with report period `1` are two reports
and write four lines, each record followed by the line that names the
columns. -/
theorem header_follows_each_record :
    snapshots (LeapfrogDynamics Rat.sqrt
      { x := ![3, 4], p := 0, F := 0, im := 1, GMm := 1, v := 0, T := 0, V := 0, r := 0 }
      (1 / 2) 0 2 { verbose := 1, printing := 1 }).log = 2 ∧
    lineEnds (LeapfrogDynamics Rat.sqrt
      { x := ![3, 4], p := 0, F := 0, im := 1, GMm := 1, v := 0, T := 0, V := 0, r := 0 }
      (1 / 2) 0 2 { verbose := 1, printing := 1 }).cout = 4 ∧
    ∃ r1 r2 : List (Tok ℚ), lineEnds r1 = 1 ∧ lineEnds r2 = 1 ∧
      (LeapfrogDynamics Rat.sqrt
        { x := ![3, 4], p := 0, F := 0, im := 1, GMm := 1, v := 0, T := 0, V := 0, r := 0 }
        (1 / 2) 0 2 { verbose := 1, printing := 1 }).cout
      = r1 ++
        [.str "#", .str "\tx[", .int 0, .str "]\t", .str "\tx[", .int 1, .str "]\t",
         .str "\tv[", .int 0, .str "]\t", .str "\tv[", .int 1, .str "]\t",
         .str "\tT\t\tV\t\tT+V", .endl] ++ r2 ++
        [.str "#", .str "\tx[", .int 0, .str "]\t", .str "\tx[", .int 1, .str "]\t",
         .str "\tv[", .int 0, .str "]\t", .str "\tv[", .int 1, .str "]\t",
         .str "\tT\t\tV\t\tT+V", .endl] := by
  obtain ⟨w0, hw0⟩ : ∃ w0 : World ℚ, w0 =
      { a := { x := ![3, 4], p := 0, F := 0, im := 1, GMm := 1, v := 0, T := 0, V := 0, r := 0 },
        t := 0, cout := [], log := [] } := ⟨_, rfl⟩
  have e : LeapfrogDynamics Rat.sqrt
      { x := ![3, 4], p := 0, F := 0, im := 1, GMm := 1, v := 0, T := 0, V := 0, r := 0 }
      (1 / 2) 0 2 { verbose := 1, printing := 1 }
      = iteration Rat.sqrt (1 / 2) { verbose := 1, printing := 1 } 1
          (iteration Rat.sqrt (1 / 2) { verbose := 1, printing := 1 } 0 w0) := by
    rw [hw0]
    rfl
  have h0 : w0.cout = [] := by rw [hw0]
  obtain ⟨r1, h1, l1⟩ := report_cout_lines Rat.sqrt w0
  obtain ⟨r2, h2, l2⟩ := report_cout_lines Rat.sqrt
    (iteration Rat.sqrt (1 / 2) { verbose := 1, printing := 1 } 0 w0)
  have hc : (LeapfrogDynamics Rat.sqrt
      { x := ![3, 4], p := 0, F := 0, im := 1, GMm := 1, v := 0, T := 0, V := 0, r := 0 }
      (1 / 2) 0 2 { verbose := 1, printing := 1 }).cout
      = r1 ++
        [.str "#", .str "\tx[", .int 0, .str "]\t", .str "\tx[", .int 1, .str "]\t",
         .str "\tv[", .int 0, .str "]\t", .str "\tv[", .int 1, .str "]\t",
         .str "\tT\t\tV\t\tT+V", .endl] ++ r2 ++
        [.str "#", .str "\tx[", .int 0, .str "]\t", .str "\tx[", .int 1, .str "]\t",
         .str "\tv[", .int 0, .str "]\t", .str "\tv[", .int 1, .str "]\t",
         .str "\tT\t\tV\t\tT+V", .endl] := by
    rw [e, iteration_cout, if_pos (by decide), h2, iteration_cout, if_pos (by decide), h1, h0]
    simp only [List.nil_append, List.append_assoc]
  refine ⟨?_, ?_, r1, r2, l1, l2, hc⟩
  · have hl := loop_go_log Rat.sqrt (1 / 2 : ℚ) { verbose := 1, printing := 1 } 2 0
      { a := { x := ![3, 4], p := 0, F := 0, im := 1, GMm := 1, v := 0, T := 0, V := 0, r := 0 },
        t := 0, cout := [], log := [] }
    have hl' : (LeapfrogDynamics Rat.sqrt
        { x := ![3, 4], p := 0, F := 0, im := 1, GMm := 1, v := 0, T := 0, V := 0, r := 0 }
        (1 / 2) 0 2 { verbose := 1, printing := 1 }).log
        = reportEvents ++ stepEvents (1 / 2) ++ (reportEvents ++ stepEvents (1 / 2)) := by
      simpa [LeapfrogDynamics, loop, List.range_succ] using hl
    rw [hl']
    rfl
  · rw [hc]
    simp only [lineEnds_append, l1, l2]
    rfl

/-! ## What a snapshot holds -/

/-- The record that the reporting branch writes over the reals, in terms of the
particle and the clock at its start. -/
theorem report_record (w : World ℝ) :
    ∃ rest, (report Real.sqrt w).cout = w.cout ++
      [.num w.t, .str "\t", .num (w.a.x 0), .str "\t", .num (w.a.x 1),
       .str "\t", .num (w.a.p 0 * w.a.im), .str "\t", .num (w.a.p 1 * w.a.im),
       .str "\t", .num (0.5 * ∑ j, (w.a.p j * w.a.im) * w.a.p j),
       .str "\t", .num (- w.a.GMm / Real.sqrt (∑ j, w.a.x j ^ 2)),
       .str "\t", .num (0.5 * ∑ j, (w.a.p j * w.a.im) * w.a.p j
          + - w.a.GMm / Real.sqrt (∑ j, w.a.x j ^ 2)), .endl] ++ rest := by
  have hR : (0.0 : ℝ) + w.a.x 0 * w.a.x 0 + w.a.x 1 * w.a.x 1 = ∑ j, w.a.x j ^ 2 := by
    rw [Fin.sum_univ_two]; norm_num; ring
  have hT : (0.0 : ℝ) + 0.5 * (w.a.p 0 * w.a.im) * w.a.p 0 + 0.5 * (w.a.p 1 * w.a.im) * w.a.p 1
      = 0.5 * ∑ j, (w.a.p j * w.a.im) * w.a.p j := by
    rw [Fin.sum_univ_two]; norm_num; ring
  refine ⟨[.str "#", .str "\tx[", .int 0, .str "]\t", .str "\tx[", .int 1, .str "]\t",
    .str "\tv[", .int 0, .str "]\t", .str "\tv[", .int 1, .str "]\t",
    .str "\tT\t\tV\t\tT+V", .endl], ?_⟩
  rw [report_cout, (report_state Real.sqrt w).1, List.append_assoc]
  simp only [Force_eq, pv2T_eq, p2v_eq, hR, hT]

/-- C12: over the reals, in a run of `N` steps a round `i < N` that reports
writes, right after the output of the rounds before it, the record of the
state at its start, which is the state that a run of `i` steps ends in: the
time `t0 + i * dt`, the position, the velocity `p_j * im`, the kinetic energy
`0.5 * sum_j v_j * p_j`, the potential energy `-GMm / |x|` at this position,
and their sum. -/
theorem snapshot_content (a : particle ℝ) (dt t0 : ℝ) (i N : Nat) (c : control)
    (hi : i < N) (hc : c.printing ≠ 0 ∧ Int.tmod i c.printing = 0) :
    let w : World ℝ := LeapfrogDynamics Real.sqrt a dt t0 i c
    let v : Fin D → ℝ := fun j => w.a.p j * w.a.im
    let T : ℝ := 0.5 * ∑ j, v j * w.a.p j
    let V : ℝ := - w.a.GMm / Real.sqrt (∑ j, w.a.x j ^ 2)
    w.t = t0 + i * dt ∧
    LeapfrogDynamics Real.sqrt a dt t0 N c
      = loop.go (iteration Real.sqrt dt c) (N - i) i w ∧
    ∃ rest, (LeapfrogDynamics Real.sqrt a dt t0 N c).cout = w.cout ++
      [.num (t0 + i * dt), .str "\t", .num (w.a.x 0), .str "\t", .num (w.a.x 1),
       .str "\t", .num (v 0), .str "\t", .num (v 1),
       .str "\t", .num T, .str "\t", .num V, .str "\t", .num (T + V), .endl] ++ rest := by
  intro w v T V
  have ht : w.t = t0 + i * dt := by
    have h := (clock_loop_go Real.sqrt dt c i 0 { a := a, t := t0, cout := [], log := [] }).1
    simpa [w, LeapfrogDynamics, loop] using h
  have hrun : LeapfrogDynamics Real.sqrt a dt t0 N c
      = loop.go (iteration Real.sqrt dt c) (N - i) i w := by
    have h := loop_go_add (iteration Real.sqrt dt c) i (N - i) 0
      { a := a, t := t0, cout := [], log := [] }
    rw [show i + (N - i) = N by omega, zero_add] at h
    simpa [w, LeapfrogDynamics, loop] using h
  refine ⟨ht, hrun, ?_⟩
  obtain ⟨m, hm⟩ : ∃ m, N - i = m + 1 := ⟨N - i - 1, by omega⟩
  rw [hrun, hm, loop.go]
  obtain ⟨rest, h⟩ := loop_go_cout_prefix Real.sqrt dt c m (i + 1)
    (iteration Real.sqrt dt c i w)
  obtain ⟨rest', h'⟩ := report_record w
  rw [h, iteration_cout, if_pos hc, h', ht, List.append_assoc]
  exact ⟨_, rfl⟩

/-- Witness of C12: the first record that `main` writes is `t = 0`,
`x = (9, 0)`, `v = (0, 1/3)`, `T = 1/18`, `V = -1/9`, `T+V = -1/18`. -/
theorem snapshot_content_witness :
    ((0 : Nat) < 500000 ∧ ((5 : Int) ≠ 0 ∧ Int.tmod (0 : Nat) 5 = 0)) ∧
    ∃ rest, (main Real.sqrt
        { x := 0, p := 0, F := 0, im := 0, GMm := 0, v := 0, T := 0, V := 0, r := 0 }).cout
      = [.num 0, .str "\t", .num 9, .str "\t", .num 0, .str "\t", .num 0, .str "\t",
         .num (1 / 3), .str "\t", .num (1 / 18), .str "\t", .num (-1 / 9), .str "\t",
         .num (-1 / 18), .endl] ++ rest := by
  obtain ⟨A, hA⟩ : ∃ A : particle ℝ, A = v2p
      { x := Function.update (Function.update (0 : Fin D → ℝ) 0 9.0) 1 0.0, p := 0, F := 0,
        im := 1.0, GMm := 1.0,
        v := Function.update (Function.update (0 : Fin D → ℝ) 0 0.0) 1 (1.0 / 3.0), T := 0,
        V := 0, r := 0 } := ⟨_, rfl⟩
  have hm : main Real.sqrt
      { x := 0, p := 0, F := 0, im := 0, GMm := 0, v := 0, T := 0, V := 0, r := 0 }
      = LeapfrogDynamics Real.sqrt A 0.001 0.0 ((500000 : Nat) : Int)
          { verbose := 1, printing := 5 } := by
    rw [hA]
    simp only [main]
    rfl
  have hw : LeapfrogDynamics Real.sqrt A 0.001 0.0 ((0 : Nat) : Int)
      { verbose := 1, printing := 5 } = { a := A, t := 0.0, cout := [], log := [] } := rfl
  obtain ⟨-, -, rest, h⟩ := snapshot_content A 0.001 0.0 0 500000
    { verbose := 1, printing := 5 } (by norm_num) (by decide)
  refine ⟨⟨by norm_num, by decide⟩, rest, ?_⟩
  have h81 : Real.sqrt 81 = 9 := by
    rw [show (81 : ℝ) = 9 ^ 2 by norm_num]
    exact Real.sqrt_sq (by norm_num)
  have hx0 : A.x 0 = 9 := by rw [hA, v2p_eq]; simp; norm_num
  have hx1 : A.x 1 = 0 := by rw [hA, v2p_eq]; simp; norm_num
  have hp0 : A.p 0 = 0 := by rw [hA, v2p_eq]; simp; norm_num
  have hp1 : A.p 1 = 1 / 3 := by rw [hA, v2p_eq]; simp; norm_num
  have him : A.im = 1 := by rw [hA, v2p_eq]; simp; norm_num
  have hG : A.GMm = 1 := by rw [hA, v2p_eq]; simp; norm_num
  rw [hm, h, hw]
  simp only [Fin.sum_univ_two, hx0, hx1, hp0, hp1, him, hG, List.nil_append]
  norm_num [h81]

/-! ## Rounding -/

/-- C5 fails on the code: in `double` arithmetic, with inverse mass `0.3` and
velocity `(0.7, 0.1)`, `v2p` followed by `p2v` returns the first component as
`0.7000000000000001`, the `double` next above `0.7`. -/
theorem p2v_v2p_rounds :
    (p2v (v2p
      ({ x := fun _ => 0.0, p := fun _ => 0.0, F := fun _ => 0.0, im := 0.3, GMm := 1.0,
         v := ![0.7, 0.1], T := 0.0, V := 0.0, r := 0.0 } : particle F64))).v 0
      = 0.7000000000000001 ∧
    (p2v (v2p
      ({ x := fun _ => 0.0, p := fun _ => 0.0, F := fun _ => 0.0, im := 0.3, GMm := 1.0,
         v := ![0.7, 0.1], T := 0.0, V := 0.0, r := 0.0 } : particle F64))).v 0
      ≠ (0.7 : F64) ∧
    (0.7000000000000001 : F64) = F64.fin false (6305039478318695 * 2 ^ 1021) ∧
    (0.7 : F64) = F64.fin false (6305039478318694 * 2 ^ 1021) := by
  decide!

/-- C7 fails on the code: in `double` arithmetic, at `(2^600, 0)` with `G = 1`
the square of the radius overflows, and `Force` stores the radius `inf`, the
potential energy `-0` and the force `(-0, -0)`; at `(2^-600, 0)` the square
underflows, and `Force` stores the radius `0`, the potential energy `-inf` and
the force `(-inf, NaN)`.  In multiples of `2^-1074` the coordinate `2^600` is
`2^1674` and `2^-600` is `2^474`. -/
theorem Force_on_axis_overflows :
    (Force F64.sqrt
      { x := ![F64.fin false (2 ^ 1674), 0.0], p := fun _ => 0.0, F := fun _ => 0.0, im := 1.0,
        GMm := 1.0, v := fun _ => 0.0, T := 0.0, V := 0.0, r := 0.0 }).r = F64.inf false ∧
    (Force F64.sqrt
      { x := ![F64.fin false (2 ^ 1674), 0.0], p := fun _ => 0.0, F := fun _ => 0.0, im := 1.0,
        GMm := 1.0, v := fun _ => 0.0, T := 0.0, V := 0.0, r := 0.0 }).V = F64.fin true 0 ∧
    (Force F64.sqrt
      { x := ![F64.fin false (2 ^ 1674), 0.0], p := fun _ => 0.0, F := fun _ => 0.0, im := 1.0,
        GMm := 1.0, v := fun _ => 0.0, T := 0.0, V := 0.0, r := 0.0 }).F 0 = F64.fin true 0 ∧
    (Force F64.sqrt
      { x := ![F64.fin false (2 ^ 1674), 0.0], p := fun _ => 0.0, F := fun _ => 0.0, im := 1.0,
        GMm := 1.0, v := fun _ => 0.0, T := 0.0, V := 0.0, r := 0.0 }).F 1 = F64.fin true 0 ∧
    (Force F64.sqrt
      { x := ![F64.fin false (2 ^ 474), 0.0], p := fun _ => 0.0, F := fun _ => 0.0, im := 1.0,
        GMm := 1.0, v := fun _ => 0.0, T := 0.0, V := 0.0, r := 0.0 }).r = F64.fin false 0 ∧
    (Force F64.sqrt
      { x := ![F64.fin false (2 ^ 474), 0.0], p := fun _ => 0.0, F := fun _ => 0.0, im := 1.0,
        GMm := 1.0, v := fun _ => 0.0, T := 0.0, V := 0.0, r := 0.0 }).V = F64.inf true ∧
    (Force F64.sqrt
      { x := ![F64.fin false (2 ^ 474), 0.0], p := fun _ => 0.0, F := fun _ => 0.0, im := 1.0,
        GMm := 1.0, v := fun _ => 0.0, T := 0.0, V := 0.0, r := 0.0 }).F 0 = F64.inf true ∧
    (Force F64.sqrt
      { x := ![F64.fin false (2 ^ 474), 0.0], p := fun _ => 0.0, F := fun _ => 0.0, im := 1.0,
        GMm := 1.0, v := fun _ => 0.0, T := 0.0, V := 0.0, r := 0.0 }).F 1 = F64.nan := by
  decide!

/-- C3 fails on the code: from position `(-1, 0)` with momentum `(1, 0)`, unit
inverse mass and gravitational parameter, the first half step with `dt = 2`
lands on the origin, the force there is NaN, and one step forward followed by
one step with `-dt` leaves NaN in position and momentum instead of the
original values.  The same happens in exact arithmetic in which a division by
zero has no value. -/
theorem time_reversal_through_origin :
    (PositionStep
      ({ x := ![-1.0, 0.0], p := ![1.0, 0.0], F := fun _ => 0.0, im := 1.0, GMm := 1.0,
         v := fun _ => 0.0, T := 0.0, V := 0.0, r := 0.0 } : particle F64) (2.0 * 0.5)).x 0
      = 0.0 ∧
    (LeapfrogDynamics F64.sqrt
      (LeapfrogDynamics F64.sqrt
        { x := ![-1.0, 0.0], p := ![1.0, 0.0], F := fun _ => 0.0, im := 1.0, GMm := 1.0,
          v := fun _ => 0.0, T := 0.0, V := 0.0, r := 0.0 }
        2.0 0.0 1 { verbose := 1, printing := 0 }).a
      (-2.0)
      (LeapfrogDynamics F64.sqrt
        { x := ![-1.0, 0.0], p := ![1.0, 0.0], F := fun _ => 0.0, im := 1.0, GMm := 1.0,
          v := fun _ => 0.0, T := 0.0, V := 0.0, r := 0.0 }
        2.0 0.0 1 { verbose := 1, printing := 0 }).t
      1 { verbose := 1, printing := 0 }).a.x 0 = F64.nan ∧
    (LeapfrogDynamics F64.sqrt
      (LeapfrogDynamics F64.sqrt
        { x := ![-1.0, 0.0], p := ![1.0, 0.0], F := fun _ => 0.0, im := 1.0, GMm := 1.0,
          v := fun _ => 0.0, T := 0.0, V := 0.0, r := 0.0 }
        2.0 0.0 1 { verbose := 1, printing := 0 }).a
      (-2.0)
      (LeapfrogDynamics F64.sqrt
        { x := ![-1.0, 0.0], p := ![1.0, 0.0], F := fun _ => 0.0, im := 1.0, GMm := 1.0,
          v := fun _ => 0.0, T := 0.0, V := 0.0, r := 0.0 }
        2.0 0.0 1 { verbose := 1, printing := 0 }).t
      1 { verbose := 1, printing := 0 }).a.p 0 = F64.nan ∧
    (LeapfrogDynamics XR.sqrt
      (LeapfrogDynamics XR.sqrt
        { x := ![-1.0, 0.0], p := ![1.0, 0.0], F := fun _ => 0.0, im := 1.0, GMm := 1.0,
          v := fun _ => 0.0, T := 0.0, V := 0.0, r := 0.0 }
        2.0 0.0 1 { verbose := 1, printing := 0 }).a
      (-2.0)
      (LeapfrogDynamics XR.sqrt
        { x := ![-1.0, 0.0], p := ![1.0, 0.0], F := fun _ => 0.0, im := 1.0, GMm := 1.0,
          v := fun _ => 0.0, T := 0.0, V := 0.0, r := 0.0 }
        2.0 0.0 1 { verbose := 1, printing := 0 }).t
      1 { verbose := 1, printing := 0 }).a.x 0 = XR.nan := by
  decide!

/-! ## Time reversal -/

/-- The half-stepped position of a round depends on position, momentum and
inverse mass at its start only. -/
theorem halfstep_congr {α : Type} [Add α] [Mul α] (h : α) (a b : particle α)
    (hx : a.x = b.x) (hp : a.p = b.p) (him : a.im = b.im) :
    (PositionStep a h).x = (PositionStep b h).x := by
  rw [PositionStep_eq, PositionStep_eq]
  simp only [hx, hp, him]

/-- Over the reals, the half step back from the end of a round lands on the
half-stepped position of that round. -/
theorem halfstep_reverse (sqrt : ℝ → ℝ) (dt : ℝ) (c : control) (i : Int) (w : World ℝ) :
    (PositionStep (iteration sqrt dt c i w).a (-dt * 0.5)).x
      = (PositionStep w.a (dt * 0.5)).x := by
  have h := phase_iteration_congr sqrt dt c ⟨0, 0⟩ i 0 w w rfl
  simp only [phase, Prod.mk.injEq] at h
  rw [PositionStep_eq, PositionStep_eq]
  simp only [h.1, h.2.1, h.2.2.1]
  simp only [iteration, PositionStep_eq, MomentumStep_eq, Force_eq, ne_eq,
    not_true_eq_false, false_and, if_false]
  funext j
  ring

/-- A run of `N` steps, as the loop it is. -/
theorem LeapfrogDynamics_eq_loop_go {α : Type} [OfScientific α] [Add α] [Mul α] [Neg α]
    [Div α] (sqrt : α → α) (a : particle α) (dt t : α) (N : ℕ) (c : control) :
    LeapfrogDynamics sqrt a dt t N c
      = loop.go (iteration sqrt dt c) N 0 { a := a, t := t, cout := [], log := [] } := by
  simp only [LeapfrogDynamics, loop, Int.toNat_ofNat]

/-- C3, with the proviso it needs: over the reals, if no round of the forward
run evaluates the force of its stepping part at the origin, that is, if no
half-stepped position of the run of `N` steps with step `dt` is zero, then the
run of `N` steps with step `-dt` from the particle and clock it leaves
evaluates the force of its stepping part at the same positions, none of them
the origin, and gives back the original position, momentum and clock, for all
control settings of the two runs. -/
theorem LeapfrogDynamics_time_reversal (a : particle ℝ) (dt t : ℝ) (N : ℕ)
    (c c' : control)
    (h : ∀ i : ℕ, i < N →
      (PositionStep (LeapfrogDynamics Real.sqrt a dt t i c).a (dt * 0.5)).x ≠ 0) :
    let w : World ℝ := LeapfrogDynamics Real.sqrt a dt t N c
    let w' : World ℝ := LeapfrogDynamics Real.sqrt w.a (-dt) w.t N c'
    (∀ j : ℕ, j < N →
      (PositionStep (LeapfrogDynamics Real.sqrt w.a (-dt) w.t j c').a (-dt * 0.5)).x
        = (PositionStep (LeapfrogDynamics Real.sqrt a dt t (N - 1 - j : ℕ) c).a (dt * 0.5)).x ∧
      (PositionStep (LeapfrogDynamics Real.sqrt w.a (-dt) w.t j c').a (-dt * 0.5)).x ≠ 0) ∧
    w'.a.x = a.x ∧ w'.a.p = a.p ∧ w'.t = t := by
  intro w w'
  have hw : w = loop.go (iteration Real.sqrt dt c) N 0 { a := a, t := t, cout := [], log := [] } :=
    LeapfrogDynamics_eq_loop_go Real.sqrt a dt t N c
  have hrev := phase_loop_go_reverse Real.sqrt dt c c' N 0 0
    { a := a, t := t, cout := [], log := [] } { a := w.a, t := w.t, cout := [], log := [] }
    (by rw [← hw]; rfl)
  rw [← LeapfrogDynamics_eq_loop_go] at hrev
  simp only [phase, Prod.mk.injEq] at hrev
  refine ⟨fun j hj => ?_, hrev.1, hrev.2.1, hrev.2.2.2.2⟩
  obtain ⟨m, hm⟩ : ∃ m : ℕ, N = (m + 1) + j := ⟨N - 1 - j, by omega⟩
  have hm' : N - 1 - j = m := by omega
  -- the forward run up to round `m`, and through it
  have hsplit : w = loop.go (iteration Real.sqrt dt c) j (0 + ((m + 1 : ℕ) : Int))
      (iteration Real.sqrt dt c (0 + (m : Int))
        (LeapfrogDynamics Real.sqrt a dt t (m : ℕ) c)) := by
    rw [hw, LeapfrogDynamics_eq_loop_go, hm, loop_go_add, loop_go_succ]
  have hback := phase_loop_go_reverse Real.sqrt dt c c' j (0 + ((m + 1 : ℕ) : Int)) 0
    (iteration Real.sqrt dt c (0 + (m : Int)) (LeapfrogDynamics Real.sqrt a dt t (m : ℕ) c))
    { a := w.a, t := w.t, cout := [], log := [] }
    (by rw [← hsplit]; rfl)
  rw [← LeapfrogDynamics_eq_loop_go] at hback
  simp only [phase, Prod.mk.injEq] at hback
  have e1 : (PositionStep (LeapfrogDynamics Real.sqrt w.a (-dt) w.t j c').a (-dt * 0.5)).x
      = (PositionStep (LeapfrogDynamics Real.sqrt a dt t (m : ℕ) c).a (dt * 0.5)).x := by
    rw [← halfstep_reverse Real.sqrt dt c (0 + (m : Int))]
    exact halfstep_congr _ _ _ hback.1 hback.2.1 hback.2.2.1
  rw [hm']
  refine ⟨e1, ?_⟩
  rw [e1]
  exact h m (by omega)

/-- In one step with `dt = 1` from position `(1, 0)` at rest the force is
evaluated at `(1, 0)`. -/
theorem halfstep_at_rest (i : ℕ) (hi : i < 1) :
    (PositionStep (LeapfrogDynamics Real.sqrt
      { x := ![1, 0], p := 0, F := 0, im := 1, GMm := 1, v := 0, T := 0, V := 0, r := 0 }
      1 0 i { verbose := 1, printing := 0 }).a (1 * 0.5)).x ≠ 0 := by
  obtain rfl : i = 0 := by omega
  rw [LeapfrogDynamics_eq_loop_go, PositionStep_eq]
  intro h
  have h0 := congrFun h 0
  simp [loop.go] at h0

/-- Witness of C3: one step forward and one step back from position `(1, 0)`
at rest, with `dt = 1`. -/
theorem LeapfrogDynamics_time_reversal_witness :
    (∀ i : ℕ, i < 1 →
      (PositionStep (LeapfrogDynamics Real.sqrt
        { x := ![1, 0], p := 0, F := 0, im := 1, GMm := 1, v := 0, T := 0, V := 0, r := 0 }
        1 0 i { verbose := 1, printing := 0 }).a (1 * 0.5)).x ≠ 0) ∧
    (LeapfrogDynamics Real.sqrt
      (LeapfrogDynamics Real.sqrt
        { x := ![1, 0], p := 0, F := 0, im := 1, GMm := 1, v := 0, T := 0, V := 0, r := 0 }
        1 0 (1 : ℕ) { verbose := 1, printing := 0 }).a
      (-1)
      (LeapfrogDynamics Real.sqrt
        { x := ![1, 0], p := 0, F := 0, im := 1, GMm := 1, v := 0, T := 0, V := 0, r := 0 }
        1 0 (1 : ℕ) { verbose := 1, printing := 0 }).t
      (1 : ℕ) { verbose := 1, printing := 0 }).a.x = ![1, 0] :=
  ⟨halfstep_at_rest,
   (LeapfrogDynamics_time_reversal
      { x := ![1, 0], p := 0, F := 0, im := 1, GMm := 1, v := 0, T := 0, V := 0, r := 0 }
      1 0 1 { verbose := 1, printing := 0 } { verbose := 1, printing := 0 }
      halfstep_at_rest).2.1⟩

/-! ## The clock -/

section Cadence

variable {α : Type} [OfScientific α] [Add α] [Mul α] [Neg α] [Div α]

/-- The output of a run of `n` rounds: one after the other, the two lines of
each round that the test selects, written from the state at the start of that
round. -/
theorem loop_go_cout (sqrt : α → α) (dt : α) (c : control) (n : Nat) (w0 : World α) :
    (loop.go (iteration sqrt dt c) n 0 w0).cout
      = w0.cout ++ (List.range n).flatMap (fun i =>
          if c.printing ≠ 0 ∧ Int.tmod (0 + (i : Int)) c.printing = 0 then
            [.num (loop.go (iteration sqrt dt c) i 0 w0).t,
             .str "\t",
             .num ((Force sqrt (pv2T (p2v (loop.go (iteration sqrt dt c) i 0 w0).a))).x 0),
             .str "\t",
             .num ((Force sqrt (pv2T (p2v (loop.go (iteration sqrt dt c) i 0 w0).a))).x 1),
             .str "\t",
             .num ((Force sqrt (pv2T (p2v (loop.go (iteration sqrt dt c) i 0 w0).a))).v 0),
             .str "\t",
             .num ((Force sqrt (pv2T (p2v (loop.go (iteration sqrt dt c) i 0 w0).a))).v 1),
             .str "\t",
             .num (Force sqrt (pv2T (p2v (loop.go (iteration sqrt dt c) i 0 w0).a))).T,
             .str "\t",
             .num (Force sqrt (pv2T (p2v (loop.go (iteration sqrt dt c) i 0 w0).a))).V,
             .str "\t",
             .num ((Force sqrt (pv2T (p2v (loop.go (iteration sqrt dt c) i 0 w0).a))).T
               + (Force sqrt (pv2T (p2v (loop.go (iteration sqrt dt c) i 0 w0).a))).V),
             .endl,
             .str "#", .str "\tx[", .int 0, .str "]\t", .str "\tx[", .int 1, .str "]\t",
             .str "\tv[", .int 0, .str "]\t", .str "\tv[", .int 1, .str "]\t",
             .str "\tT\t\tV\t\tT+V", .endl]
          else []) := by
  induction n with
  | zero => simp [loop.go]
  | succ n ih =>
    rw [loop_go_succ, iteration_cout, List.range_succ, List.flatMap_append, ← List.append_assoc,
      ← ih]
    by_cases hd : c.printing ≠ 0 ∧ Int.tmod (0 + (n : Int)) c.printing = 0
    · have h2 : Int.tmod (n : Int) c.printing = 0 := by simpa using hd.2
      rw [if_pos hd, report_cout, (report_state sqrt _).1]
      simp [hd.1, h2]
    · have h2 : ¬ (c.printing ≠ 0 ∧ Int.tmod (n : Int) c.printing = 0) := by simpa using hd
      rw [if_neg hd]
      simpa using fun h0 => fun h1 => h2 ⟨h0, h1⟩

/-- Rounding `n / k` up, one `n` after the other. -/
theorem ceil_div_succ (n k : Nat) (hk : 0 < k) :
    (n + 1 + k - 1) / k = (n + k - 1) / k + if n % k = 0 then 1 else 0 := by
  have e : n + 1 + k - 1 = (n + k - 1) + 1 := by omega
  rw [e, Nat.succ_div]
  have e' : n + k - 1 + 1 = n + k := by omega
  rw [e']
  congr 1
  by_cases h : n % k = 0
  · have hd : k ∣ n + k := (Nat.dvd_add_left (dvd_refl k)).2 (Nat.dvd_of_mod_eq_zero h)
    simp [h, hd]
  · have hd : ¬ k ∣ n + k := fun hd =>
      h (Nat.mod_eq_zero_of_dvd ((Nat.dvd_add_left (dvd_refl k)).1 hd))
    simp [h, hd]

/-- The number of lines of an output that has two lines for each multiple of
`k` below `n`. -/
theorem lineEnds_range {β : Type} (k n : Nat) (hk : 0 < k) (f : Nat → List (Tok β))
    (hf : ∀ i, lineEnds (f i) = 2) :
    lineEnds ((List.range n).flatMap (fun i => if i % k = 0 then f i else []))
      = 2 * ((n + k - 1) / k) := by
  induction n with
  | zero =>
    have e : (k - 1) / k = 0 := Nat.div_eq_of_lt (by omega)
    simp [lineEnds, e]
  | succ n ih =>
    rw [List.range_succ, List.flatMap_append, lineEnds_append, ih, ceil_div_succ n k hk]
    by_cases h : n % k = 0
    · simp [h, hf, lineEnds]
      ring
    · simp [h, lineEnds]

end Cadence

/-- C11: for every `N`, with a report period `k > 0` the output of
`LeapfrogDynamics` is, for each round `i < N` with `i mod k = 0` in turn and
for no other round, the snapshot of the state at the start of round `i` (its
clock, then position, velocity, kinetic, potential and total energy as the
reporting branch recomputes them) followed by the line that names the columns;
that is `ceil (N / k)` snapshots, two lines each, and the rounds that run the
reporting branch are the same rounds.  With report period `0` no round
reports, there is no snapshot and nothing is written. -/
theorem LeapfrogDynamics_cadence {α : Type} [OfScientific α] [Add α] [Mul α] [Neg α] [Div α]
    (sqrt : α → α) (a : particle α) (dt t : α) (N k : Nat) (verbose : Int) :
    (0 < k →
      (LeapfrogDynamics sqrt a dt t N { verbose := verbose, printing := k }).cout
        = (List.range N).flatMap (fun i =>
            if i % k = 0 then
              [.num (LeapfrogDynamics sqrt a dt t i { verbose := verbose, printing := k }).t,
               .str "\t",
               .num ((Force sqrt (pv2T (p2v (LeapfrogDynamics sqrt a dt t i
                  { verbose := verbose, printing := k }).a))).x 0),
               .str "\t",
               .num ((Force sqrt (pv2T (p2v (LeapfrogDynamics sqrt a dt t i
                  { verbose := verbose, printing := k }).a))).x 1),
               .str "\t",
               .num ((Force sqrt (pv2T (p2v (LeapfrogDynamics sqrt a dt t i
                  { verbose := verbose, printing := k }).a))).v 0),
               .str "\t",
               .num ((Force sqrt (pv2T (p2v (LeapfrogDynamics sqrt a dt t i
                  { verbose := verbose, printing := k }).a))).v 1),
               .str "\t",
               .num (Force sqrt (pv2T (p2v (LeapfrogDynamics sqrt a dt t i
                  { verbose := verbose, printing := k }).a))).T,
               .str "\t",
               .num (Force sqrt (pv2T (p2v (LeapfrogDynamics sqrt a dt t i
                  { verbose := verbose, printing := k }).a))).V,
               .str "\t",
               .num ((Force sqrt (pv2T (p2v (LeapfrogDynamics sqrt a dt t i
                  { verbose := verbose, printing := k }).a))).T
                 + (Force sqrt (pv2T (p2v (LeapfrogDynamics sqrt a dt t i
                  { verbose := verbose, printing := k }).a))).V),
               .endl,
               .str "#", .str "\tx[", .int 0, .str "]\t", .str "\tx[", .int 1, .str "]\t",
               .str "\tv[", .int 0, .str "]\t", .str "\tv[", .int 1, .str "]\t",
               .str "\tT\t\tV\t\tT+V", .endl]
            else []) ∧
      lineEnds (LeapfrogDynamics sqrt a dt t N { verbose := verbose, printing := k }).cout
        = 2 * ((N + k - 1) / k) ∧
      (LeapfrogDynamics sqrt a dt t N { verbose := verbose, printing := k }).log
        = (List.range N).flatMap (fun i =>
            (if i % k = 0 then reportEvents else []) ++ stepEvents dt) ∧
      snapshots (LeapfrogDynamics sqrt a dt t N { verbose := verbose, printing := k }).log
        = (N + k - 1) / k) ∧
    (LeapfrogDynamics sqrt a dt t N { verbose := verbose, printing := 0 }).cout = [] ∧
    (LeapfrogDynamics sqrt a dt t N { verbose := verbose, printing := 0 }).log
      = (List.range N).flatMap (fun _ => stepEvents dt) ∧
    snapshots (LeapfrogDynamics sqrt a dt t N { verbose := verbose, printing := 0 }).log = 0 := by
  have hlog : ∀ c : control, (LeapfrogDynamics sqrt a dt t N c).log
      = (List.range N).flatMap (fun j =>
          (if c.printing ≠ 0 ∧ Int.tmod (0 + (j : Int)) c.printing = 0 then reportEvents else [])
            ++ stepEvents dt) := by
    intro c
    have h := loop_go_log sqrt dt c N 0 { a := a, t := t, cout := [], log := [] }
    simpa [LeapfrogDynamics, loop] using h
  have h0 : (LeapfrogDynamics sqrt a dt t N { verbose := verbose, printing := 0 }).log
      = (List.range N).flatMap (fun _ => stepEvents dt) := by
    rw [hlog]
    simp
  refine ⟨fun hk => ?_, ?_, h0, ?_⟩
  · have hc : (LeapfrogDynamics sqrt a dt t N { verbose := verbose, printing := k }).cout
        = (List.range N).flatMap (fun i =>
            if i % k = 0 then
              [.num (LeapfrogDynamics sqrt a dt t i { verbose := verbose, printing := k }).t,
               .str "\t",
               .num ((Force sqrt (pv2T (p2v (LeapfrogDynamics sqrt a dt t i
                  { verbose := verbose, printing := k }).a))).x 0),
               .str "\t",
               .num ((Force sqrt (pv2T (p2v (LeapfrogDynamics sqrt a dt t i
                  { verbose := verbose, printing := k }).a))).x 1),
               .str "\t",
               .num ((Force sqrt (pv2T (p2v (LeapfrogDynamics sqrt a dt t i
                  { verbose := verbose, printing := k }).a))).v 0),
               .str "\t",
               .num ((Force sqrt (pv2T (p2v (LeapfrogDynamics sqrt a dt t i
                  { verbose := verbose, printing := k }).a))).v 1),
               .str "\t",
               .num (Force sqrt (pv2T (p2v (LeapfrogDynamics sqrt a dt t i
                  { verbose := verbose, printing := k }).a))).T,
               .str "\t",
               .num (Force sqrt (pv2T (p2v (LeapfrogDynamics sqrt a dt t i
                  { verbose := verbose, printing := k }).a))).V,
               .str "\t",
               .num ((Force sqrt (pv2T (p2v (LeapfrogDynamics sqrt a dt t i
                  { verbose := verbose, printing := k }).a))).T
                 + (Force sqrt (pv2T (p2v (LeapfrogDynamics sqrt a dt t i
                  { verbose := verbose, printing := k }).a))).V),
               .endl,
               .str "#", .str "\tx[", .int 0, .str "]\t", .str "\tx[", .int 1, .str "]\t",
               .str "\tv[", .int 0, .str "]\t", .str "\tv[", .int 1, .str "]\t",
               .str "\tT\t\tV\t\tT+V", .endl]
            else []) := by
      rw [LeapfrogDynamics_eq_loop_go, loop_go_cout]
      simp only [LeapfrogDynamics_eq_loop_go, report_test k _ hk, List.nil_append]
    have h1 : (LeapfrogDynamics sqrt a dt t N { verbose := verbose, printing := k }).log
        = (List.range N).flatMap (fun i =>
            (if i % k = 0 then reportEvents else []) ++ stepEvents dt) := by
      rw [hlog]
      simp only [report_test k _ hk]
    refine ⟨hc, ?_, h1, ?_⟩
    · rw [hc]
      exact lineEnds_range k N hk _ (fun _ => rfl)
    · rw [h1]
      exact snapshots_range dt k N hk
  · have h := loop_go_cout_silent sqrt dt verbose N 0 { a := a, t := t, cout := [], log := [] }
    simpa [LeapfrogDynamics, loop] using h
  · rw [h0]
    clear h0 hlog
    induction N with
    | zero => rfl
    | succ n ih =>
      rw [List.range_succ, List.flatMap_append, snapshots_append, ih]
      simp [snapshots, stepEvents]

/-- Witness of C11: seven rounds with period `3` report in the rounds `0`, `3`
and `6` and write six lines. -/
theorem LeapfrogDynamics_cadence_witness :
    0 < 3 ∧
    lineEnds (LeapfrogDynamics Rat.sqrt
      { x := ![3, 4], p := 0, F := 0, im := 1, GMm := 1, v := 0, T := 0, V := 0, r := 0 }
      (1 / 2) 0 (7 : Nat) { verbose := 1, printing := (3 : Nat) }).cout = 2 * ((7 + 3 - 1) / 3) ∧
    snapshots (LeapfrogDynamics Rat.sqrt
      { x := ![3, 4], p := 0, F := 0, im := 1, GMm := 1, v := 0, T := 0, V := 0, r := 0 }
      (1 / 2) 0 (7 : Nat) { verbose := 1, printing := (3 : Nat) }).log = (7 + 3 - 1) / 3 :=
  ⟨by decide,
   ((LeapfrogDynamics_cadence Rat.sqrt
      { x := ![3, 4], p := 0, F := 0, im := 1, GMm := 1, v := 0, T := 0, V := 0, r := 0 }
      (1 / 2) 0 7 3 1).1 (by decide)).2.1,
   ((LeapfrogDynamics_cadence Rat.sqrt
      { x := ![3, 4], p := 0, F := 0, im := 1, GMm := 1, v := 0, T := 0, V := 0, r := 0 }
      (1 / 2) 0 7 3 1).1 (by decide)).2.2.2⟩

/-! ## Force evaluations -/

/-- On binary64 two half increments are not one full increment: from the clock
`1` with the step `2 ^ (-52)` each half increment of a round is rounded away
and the clock stays at `1`, while `1 + 2 ^ (-52)` is the next double. -/
theorem clock_two_halves_binary64 :
    (LeapfrogDynamics F64.sqrt
      { x := ![1.0, 0.0], p := ![0.0, 1.0], F := ![0.0, 0.0], im := 1.0, GMm := 1.0,
        v := ![0.0, 0.0], T := 0.0, V := 0.0, r := 0.0 }
      (F64.fin false (2 ^ 1022)) 1.0 1 { verbose := 0, printing := 0 }).t = 1.0 ∧
    (1.0 : F64) + F64.fin false (2 ^ 1022) = F64.fin false (2 ^ 1074 + 2 ^ 1022) ∧
    (1.0 : F64) = F64.fin false (2 ^ 1074) := by
  decide!

end Planets
